import Mathlib

/-!
# TenTwentyFourX — shallow embedding and verification

Shallow embedding of the repository's wagering contract
`packages/foundry/contracts/TenTwentyFourX.sol` and of the earlier,
reserved-liability revision of the same contract that the repository also
ships (second contract body in the same source file, the only revision that
defines `forfeit` and `totalOutstandingPotentialPayouts`).

Conventions of the embedding:
* `uint256` and `uint8` values are `Nat`; argument domains are bounded by the
  same `require` checks the contract performs, and the arithmetic the
  contract runs stays far below `2^256`, so plain `Nat` arithmetic agrees
  with the EVM arithmetic on every reachable value (Solidity 0.8 reverts on
  wrap; the one place it could fire, the `-=` on the liability counter of
  the older revision, is embedded with an explicit underflow check).
* `bytes32` values (hashes, secrets, salts, block hashes) are `Nat`, with
  `0` standing for the zero word that the contract treats as "empty" /
  "unavailable".
* `keccak256` is kept abstract as an arbitrary function bundle (`Crypto`):
  the contract only ever compares hashes for equality and reduces them
  modulo the multiplier, so no algebraic property of keccak is assumed.
* The external ERC20 token is modelled by the contract's own balance plus an
  association list of every other address's balance; `safeTransferFrom` and
  `safeTransfer` fail (whole call reverts) exactly when the source balance
  is short, as an ERC20 transfer does.
* A reverting call is `Except.error`: the caller's state is simply not
  replaced, which is the on-chain all-or-nothing semantics.
* `blockhash` is an environment function `Nat → Nat` supplied per call; the
  EVM guarantee (available exactly for the 256 most recent blocks, zero
  otherwise) is the predicate `EVMBlockhash`.
-/

/-- Abstract keccak256 bundle. `pairHash` is
`keccak256(abi.encodePacked(secret, salt))`; `rollSeed` is
`keccak256(abi.encodePacked(secret, blockHash, i))` (multi-roll revision);
`winSeed` is `keccak256(abi.encodePacked(secret, blockHash))`
(single-roll revisions). -/
structure Crypto where
  pairHash : Nat → Nat → Nat
  rollSeed : Nat → Nat → Nat → Nat
  winSeed : Nat → Nat → Nat

/-- Association-list lookup with a default, used for the token-balance and
per-player-bet mappings (a Solidity `mapping` reads as its zero value on a
missing key). -/
def alookupD {α : Type} (d : α) : List (Nat × α) → Nat → α
  | [], _ => d
  | (k, v) :: rest, q => if q = k then v else alookupD d rest q

/-- Association-list write (insert or overwrite). -/
def aset {α : Type} : List (Nat × α) → Nat → α → List (Nat × α)
  | [], q, v => [(q, v)]
  | (k, w) :: rest, q, v => if q = k then (k, v) :: rest else (k, w) :: aset rest q v

deriving instance DecidableEq for Except

/-- Whether an `Except` computation succeeded. -/
def isOk {ε α : Type} : Except ε α → Bool
  | .ok _ => true
  | .error _ => false

/-- The EVM `blockhash` contract at current block `n`: nonzero (a real hash)
exactly for the 256 most recent complete blocks `b` with
`b < n ∧ n ≤ b + 256`, zero otherwise. -/
def EVMBlockhash (bh : Nat → Nat) (n : Nat) : Prop :=
  ∀ b, bh b ≠ 0 ↔ (b < n ∧ n ≤ b + 256)

/-- Revert reasons of both contract revisions (each mirrors one `require`
message or an arithmetic revert). -/
inductive Err where
  | gamePaused
  | emptyHash
  | invalidBetAmount
  | invalidMultiplier
  | invalidRollCount
  | payoutExceedsMax
  | houseUnderfunded
  | insufficientBalance
  | invalidBetIndex
  | noBetFound
  | alreadyClaimed
  | waitOneBlock
  | betExpired
  | hashMismatch
  | noWinningRolls
  | notAWinner
  | arrayLengthMismatch
  | tooManyReveals
  | notOwner
  | invalidAddress
  | withdrawalPending
  | noWithdrawalRequested
  | delayNotMet
  | cancelWithdrawalFirst
  | notPendingOwner
  | invalidOwner
  | outstandingUnderflow
  deriving DecidableEq, Repr

namespace V3

/-! ## Constants (lines 29–46 of the current contract) -/

def HOUSE_EDGE_PERCENT : Nat := 2
def BURN_PERCENT : Nat := 1
def REVEAL_WINDOW : Nat := 256
def BURN_ADDRESS : Nat := 0xdEaD
def WITHDRAW_DELAY : Nat := 15 * 60
def MAX_PAYOUT_DIVISOR : Nat := 5
def MAX_ROLLS : Nat := 20

def VALID_BETS : List Nat :=
  [2000 * 10 ^ 18, 10000 * 10 ^ 18, 50000 * 10 ^ 18,
   100000 * 10 ^ 18, 500000 * 10 ^ 18, 1000000 * 10 ^ 18]

def VALID_MULTIPLIERS : List Nat := [2, 4, 8, 16, 32, 64, 128, 256, 512, 1024]

def isValidBet (betAmount : Nat) : Bool := VALID_BETS.contains betAmount

def isValidMultiplier (multiplier : Nat) : Bool := VALID_MULTIPLIERS.contains multiplier

/-- One ledger entry (struct `Bet`, lines 48–55). -/
structure Bet where
  dataHash : Nat
  commitBlock : Nat
  betAmount : Nat
  multiplier : Nat
  numRolls : Nat
  claimed : Bool
  deriving DecidableEq, Repr

/-- Contract storage plus the surrounding token balances. `balance` is
`token.balanceOf(address(this))`; `bals` holds every other address's token
balance (players and the burn sink). -/
structure State where
  balance : Nat
  bals : List (Nat × Nat)
  owner : Nat
  pendingOwner : Nat
  playerBets : List (Nat × List Bet)
  paused : Bool
  withdrawRequestedAt : Nat
  withdrawTo : Nat
  totalBets : Nat
  totalWins : Nat
  totalBetAmount : Nat
  totalPaidOut : Nat
  totalBurned : Nat
  deriving DecidableEq, Repr

instance : Inhabited State :=
  ⟨⟨0, [], 0, 0, [], false, 0, 0, 0, 0, 0, 0, 0⟩⟩

/-- The state right after the constructor ran and the house was funded
out-of-band (anyone can fund the pool with a plain token transfer; the
constructor itself moves no tokens). -/
def initState (ownerAddr pool : Nat) (funds : List (Nat × Nat)) : State :=
  { balance := pool, bals := funds, owner := ownerAddr, pendingOwner := 0,
    playerBets := [], paused := false, withdrawRequestedAt := 0, withdrawTo := 0,
    totalBets := 0, totalWins := 0, totalBetAmount := 0, totalPaidOut := 0,
    totalBurned := 0 }

/-- `token.safeTransferFrom(from, address(this), amt)`: reverts when the
payer's balance is short, otherwise moves `amt` into the pool. -/
def pullFrom (s : State) (payer amt : Nat) : Except Err State :=
  let b := alookupD 0 s.bals payer
  if amt ≤ b then
    .ok { s with bals := aset s.bals payer (b - amt), balance := s.balance + amt }
  else .error .insufficientBalance

/-- `token.safeTransfer(to, amt)` out of the pool: reverts when the pool is
short, otherwise moves `amt` to `to`. -/
def pushTo (s : State) (dst amt : Nat) : Except Err State :=
  if amt ≤ s.balance then
    .ok { s with balance := s.balance - amt,
                 bals := aset s.bals dst (alookupD 0 s.bals dst + amt) }
  else .error .insufficientBalance

/-- Line 102: `(betAmount * multiplier * (100 - HOUSE_EDGE_PERCENT)) / 100`. -/
def singlePayout (betAmount multiplier : Nat) : Nat :=
  betAmount * multiplier * (100 - HOUSE_EDGE_PERCENT) / 100

/-- Line 103: `singlePayout * numRolls` — the worst case of every roll
winning, reserved-size of the bet. -/
def maxPayout (betAmount multiplier numRolls : Nat) : Nat :=
  singlePayout betAmount multiplier * numRolls

/-- Line 208: `(betAmount * multiplier * (100 - HOUSE_EDGE_PERCENT)) / 100 * wins`
— division by 100 happens before the multiplication by `wins`. -/
def grossPayout (betAmount multiplier wins : Nat) : Nat :=
  betAmount * multiplier * (100 - HOUSE_EDGE_PERCENT) / 100 * wins

/-- The bets array of one player (`playerBets[p]`). -/
def betsOf (s : State) (p : Nat) : List Bet := alookupD [] s.playerBets p

/-- `playerBets[p][i]` when in range. -/
def getBetAt (s : State) (p i : Nat) : Option Bet := (betsOf s p)[i]?

/-- Whether `playerBets[p][i]` exists and has `claimed = true`. -/
def betClaimed (s : State) (p i : Nat) : Bool :=
  match getBetAt s p i with
  | some b => b.claimed
  | none => false

/-- `click(dataHash, betAmount, multiplier, numRolls)` (lines 94–133),
called by `sender` in block `bn`. -/
def click (s : State) (sender bn dataHash betAmount multiplier numRolls : Nat) :
    Except Err State :=
  if s.paused then .error .gamePaused
  else if dataHash = 0 then .error .emptyHash
  else if isValidBet betAmount = false then .error .invalidBetAmount
  else if isValidMultiplier multiplier = false then .error .invalidMultiplier
  else if numRolls < 1 then .error .invalidRollCount
  else if MAX_ROLLS < numRolls then .error .invalidRollCount
  else if s.balance / MAX_PAYOUT_DIVISOR < maxPayout betAmount multiplier numRolls then
    .error .payoutExceedsMax
  else
    let totalBet := betAmount * numRolls
    match pullFrom s sender totalBet with
    | .error e => .error e
    | .ok s1 =>
      let burnAmount := totalBet * BURN_PERCENT / 100
      match pushTo s1 BURN_ADDRESS burnAmount with
      | .error e => .error e
      | .ok s2 =>
        .ok { s2 with
          totalBurned := s2.totalBurned + burnAmount,
          playerBets := aset s2.playerBets sender
            (betsOf s2 sender ++
              [⟨dataHash, bn, betAmount, multiplier, numRolls, false⟩]),
          totalBets := s2.totalBets + numRolls,
          totalBetAmount := s2.totalBetAmount + totalBet }

/-- Legacy three-argument `click(dataHash, betAmount, multiplier)`
(lines 136–167). -/
def clickLegacy (s : State) (sender bn dataHash betAmount multiplier : Nat) :
    Except Err State :=
  if s.paused then .error .gamePaused
  else if dataHash = 0 then .error .emptyHash
  else if isValidBet betAmount = false then .error .invalidBetAmount
  else if isValidMultiplier multiplier = false then .error .invalidMultiplier
  else if s.balance / MAX_PAYOUT_DIVISOR < singlePayout betAmount multiplier then
    .error .payoutExceedsMax
  else
    match pullFrom s sender betAmount with
    | .error e => .error e
    | .ok s1 =>
      let burnAmount := betAmount * BURN_PERCENT / 100
      match pushTo s1 BURN_ADDRESS burnAmount with
      | .error e => .error e
      | .ok s2 =>
        .ok { s2 with
          totalBurned := s2.totalBurned + burnAmount,
          playerBets := aset s2.playerBets sender
            (betsOf s2 sender ++ [⟨dataHash, bn, betAmount, multiplier, 1, false⟩]),
          totalBets := s2.totalBets + 1,
          totalBetAmount := s2.totalBetAmount + betAmount }

/-- The win-counting loop of `_reveal` (lines 198–204), also exposed as the
view `countWins` (lines 321–327): roll `i` wins iff
`keccak256(secret, blockHash, i) % multiplier == 0`. -/
def countWins (rollSeed : Nat → Nat → Nat → Nat)
    (secret blockHash multiplier numRolls : Nat) : Nat :=
  (List.range numRolls).foldl
    (fun w i => if rollSeed secret blockHash i % multiplier = 0 then w + 1 else w) 0

/-- `_reveal(player, betIndex, secret, salt)` (lines 183–223), executed in
block `bn` with blockhash environment `bh`. -/
def revealInner (C : Crypto) (bh : Nat → Nat) (bn : Nat) (s : State)
    (player betIndex secret salt : Nat) : Except Err State :=
  match getBetAt s player betIndex with
  | none => .error .invalidBetIndex
  | some b =>
    if b.commitBlock = 0 then .error .noBetFound
    else if b.claimed then .error .alreadyClaimed
    else if bn ≤ b.commitBlock then .error .waitOneBlock
    else
      let commitBlockHash := bh b.commitBlock
      if commitBlockHash = 0 then .error .betExpired
      else if C.pairHash secret salt ≠ b.dataHash then .error .hashMismatch
      else
        let wins := countWins C.rollSeed secret commitBlockHash b.multiplier b.numRolls
        if wins = 0 then .error .noWinningRolls
        else
          let gross := grossPayout b.betAmount b.multiplier wins
          let s1 := { s with
            playerBets := aset s.playerBets player
              ((betsOf s player).set betIndex { b with claimed := true }),
            totalWins := s.totalWins + wins,
            totalPaidOut := s.totalPaidOut + gross }
          let claimBurn := gross * BURN_PERCENT / 100
          match pushTo s1 BURN_ADDRESS claimBurn with
          | .error e => .error e
          | .ok s2 =>
            match pushTo s2 player (gross - claimBurn) with
            | .error e => .error e
            | .ok s3 => .ok { s3 with totalBurned := s3.totalBurned + claimBurn }

/-- `reveal(betIndex, secret, salt)` (lines 170–172). -/
def reveal (C : Crypto) (bh : Nat → Nat) (bn : Nat) (s : State)
    (sender betIndex secret salt : Nat) : Except Err State :=
  revealInner C bh bn s sender betIndex secret salt

/-- The loop body of `batchReveal`: sequential `_reveal`s, any failure
reverting the whole call. -/
def revealMany (C : Crypto) (bh : Nat → Nat) (bn p : Nat) :
    State → List (Nat × Nat × Nat) → Except Err State
  | s, [] => .ok s
  | s, (i, sec, sal) :: rest =>
    match revealInner C bh bn s p i sec sal with
    | .error e => .error e
    | .ok s' => revealMany C bh bn p s' rest

/-- `batchReveal(betIndices, secrets, salts)` (lines 175–181). -/
def batchReveal (C : Crypto) (bh : Nat → Nat) (bn : Nat) (s : State)
    (sender : Nat) (betIndices secrets salts : List Nat) : Except Err State :=
  if betIndices.length = secrets.length ∧ secrets.length = salts.length then
    if betIndices.length ≤ 20 then
      revealMany C bh bn sender s (betIndices.zip (secrets.zip salts))
    else .error .tooManyReveals
  else .error .arrayLengthMismatch

/-- `requestWithdraw(to)` (lines 227–235) at timestamp `t`. -/
def requestWithdraw (s : State) (sender t dst : Nat) : Except Err State :=
  if sender ≠ s.owner then .error .notOwner
  else if dst = 0 then .error .invalidAddress
  else if s.withdrawRequestedAt ≠ 0 then .error .withdrawalPending
  else .ok { s with paused := true, withdrawRequestedAt := t, withdrawTo := dst }

/-- `cancelWithdraw()` (lines 237–243). -/
def cancelWithdraw (s : State) (sender : Nat) : Except Err State :=
  if sender ≠ s.owner then .error .notOwner
  else .ok { s with withdrawRequestedAt := 0, withdrawTo := 0, paused := false }

/-- `executeWithdraw()` (lines 245–254) at timestamp `t`: transfers the
whole pool balance to the recorded destination. -/
def executeWithdraw (s : State) (sender t : Nat) : Except Err State :=
  if sender ≠ s.owner then .error .notOwner
  else if s.withdrawRequestedAt = 0 then .error .noWithdrawalRequested
  else if t < s.withdrawRequestedAt + WITHDRAW_DELAY then .error .delayNotMet
  else
    pushTo { s with withdrawRequestedAt := 0, withdrawTo := 0 } s.withdrawTo s.balance

/-- `unpause()` (lines 256–260). -/
def unpause (s : State) (sender : Nat) : Except Err State :=
  if sender ≠ s.owner then .error .notOwner
  else if s.withdrawRequestedAt ≠ 0 then .error .cancelWithdrawalFirst
  else .ok { s with paused := false }

/-- `proposeOwner(newOwner)` (lines 262–266). -/
def proposeOwner (s : State) (sender newOwner : Nat) : Except Err State :=
  if sender ≠ s.owner then .error .notOwner
  else if newOwner = 0 then .error .invalidOwner
  else .ok { s with pendingOwner := newOwner }

/-- `acceptOwnership()` (lines 268–273). -/
def acceptOwnership (s : State) (sender : Nat) : Except Err State :=
  if sender ≠ s.pendingOwner then .error .notPendingOwner
  else .ok { s with owner := sender, pendingOwner := 0 }

/-- `renounceOwnership()` (lines 275–279). -/
def renounceOwnership (s : State) (sender : Nat) : Except Err State :=
  if sender ≠ s.owner then .error .notOwner
  else .ok { s with owner := 0, pendingOwner := 0 }

/-- One external state-changing call, with its caller and block/time
environment. -/
inductive Op where
  | click4 (sender bn dataHash betAmount multiplier numRolls : Nat)
  | click3 (sender bn dataHash betAmount multiplier : Nat)
  | revealOp (sender bn betIndex secret salt : Nat) (bh : Nat → Nat)
  | batchOp (sender bn : Nat) (betIndices secrets salts : List Nat) (bh : Nat → Nat)
  | requestW (sender t dst : Nat)
  | cancelW (sender : Nat)
  | executeW (sender t : Nat)
  | unpauseOp (sender : Nat)
  | proposeOp (sender newOwner : Nat)
  | acceptOp (sender : Nat)
  | renounceOp (sender : Nat)

/-- Dispatch one external call. -/
def stepOp (C : Crypto) (s : State) : Op → Except Err State
  | .click4 sender bn dh ba m nr => click s sender bn dh ba m nr
  | .click3 sender bn dh ba m => clickLegacy s sender bn dh ba m
  | .revealOp sender bn i sec sal bh => reveal C bh bn s sender i sec sal
  | .batchOp sender bn idx secs sals bh => batchReveal C bh bn s sender idx secs sals
  | .requestW sender t dst => requestWithdraw s sender t dst
  | .cancelW sender => cancelWithdraw s sender
  | .executeW sender t => executeWithdraw s sender t
  | .unpauseOp sender => unpause s sender
  | .proposeOp sender newOwner => proposeOwner s sender newOwner
  | .acceptOp sender => acceptOwnership s sender
  | .renounceOp sender => renounceOwnership s sender

/-- States reachable from a freshly deployed, externally funded contract by
completed external calls. -/
inductive Reach (C : Crypto) : State → Prop where
  | init : ∀ ownerAddr pool funds, Reach C (initState ownerAddr pool funds)
  | step : ∀ s op s', Reach C s → stepOp C s op = .ok s' → Reach C s'

/-- The reserved liability named by the specification: the sum of worst-case
payouts over all admitted bets with `claimed = false`. (The current
contract stores no such counter; this is the spec's quantity computed from
the ledger.) -/
def reservedLiability (s : State) : Nat :=
  (s.playerBets.map (fun pb =>
      ((pb.2.filter (fun b => !b.claimed)).map
        (fun b => maxPayout b.betAmount b.multiplier b.numRolls)).sum)).sum

/-- Specification-side admission predicate, following §4.2 of the spec word
for word: check (a) is `poolBalanceAfterStakeTransfer − reservedLiability ≥
candidatePayout`, check (b) is
`candidatePayout ≤ poolBalanceAfterStakeTransfer / MAX_PAYOUT_DIVISOR`. -/
def admitSpec (candidatePayout poolBalanceAfterStakeTransfer reservedLiab : Nat) : Bool :=
  (reservedLiab + candidatePayout ≤ poolBalanceAfterStakeTransfer) &&
  (candidatePayout ≤ poolBalanceAfterStakeTransfer / MAX_PAYOUT_DIVISOR)

/-- The "post-burn, post-transfer pool balance" the spec's admission clause
reads: current balance plus the incoming total stake minus the stake burn. -/
def postStakeBalance (s : State) (betAmount numRolls : Nat) : Nat :=
  s.balance + betAmount * numRolls - betAmount * numRolls * BURN_PERCENT / 100

end V3

namespace V2

/-! ## The earlier reserved-liability revision (second contract body in
`TenTwentyFourX.sol`): single-roll bets, a `totalOutstandingPotentialPayouts`
counter, `forfeit`, and an `executeWithdraw` that leaves the reserved
portion in the pool. -/

def HOUSE_EDGE_PERCENT : Nat := 2
def BURN_PERCENT : Nat := 1
def REVEAL_WINDOW : Nat := 256
def BURN_ADDRESS : Nat := 0xdEaD
def WITHDRAW_DELAY : Nat := 15 * 60

def VALID_BETS : List Nat :=
  [10000 * 10 ^ 18, 50000 * 10 ^ 18, 100000 * 10 ^ 18, 500000 * 10 ^ 18]

def VALID_MULTIPLIERS : List Nat := [2, 4, 8, 16, 32, 64, 128, 256, 512, 1024]

def isValidBet (betAmount : Nat) : Bool := VALID_BETS.contains betAmount

def isValidMultiplier (multiplier : Nat) : Bool := VALID_MULTIPLIERS.contains multiplier

/-- Struct `Bet` of the reserved-liability revision (no roll count). -/
structure Bet where
  dataHash : Nat
  commitBlock : Nat
  betAmount : Nat
  multiplier : Nat
  claimed : Bool
  deriving DecidableEq, Repr

/-- Storage of the reserved-liability revision plus surrounding token
balances. -/
structure State where
  balance : Nat
  bals : List (Nat × Nat)
  owner : Nat
  pendingOwner : Nat
  playerBets : List (Nat × List Bet)
  paused : Bool
  withdrawRequestedAt : Nat
  withdrawTo : Nat
  totalOutstandingPotentialPayouts : Nat
  totalBets : Nat
  totalWins : Nat
  totalBetAmount : Nat
  totalPaidOut : Nat
  totalBurned : Nat
  deriving DecidableEq, Repr

instance : Inhabited State :=
  ⟨⟨0, [], 0, 0, [], false, 0, 0, 0, 0, 0, 0, 0, 0⟩⟩

/-- Freshly deployed and externally funded state. -/
def initState (ownerAddr pool : Nat) (funds : List (Nat × Nat)) : State :=
  { balance := pool, bals := funds, owner := ownerAddr, pendingOwner := 0,
    playerBets := [], paused := false, withdrawRequestedAt := 0, withdrawTo := 0,
    totalOutstandingPotentialPayouts := 0, totalBets := 0, totalWins := 0,
    totalBetAmount := 0, totalPaidOut := 0, totalBurned := 0 }

def pullFrom (s : State) (payer amt : Nat) : Except Err State :=
  let b := alookupD 0 s.bals payer
  if amt ≤ b then
    .ok { s with bals := aset s.bals payer (b - amt), balance := s.balance + amt }
  else .error .insufficientBalance

def pushTo (s : State) (dst amt : Nat) : Except Err State :=
  if amt ≤ s.balance then
    .ok { s with balance := s.balance - amt,
                 bals := aset s.bals dst (alookupD 0 s.bals dst + amt) }
  else .error .insufficientBalance

/-- `(betAmount * multiplier * (100 - HOUSE_EDGE_PERCENT)) / 100` — the
worst-case payout of one bet, both reserved at commit and paid on a win. -/
def payoutOf (betAmount multiplier : Nat) : Nat :=
  betAmount * multiplier * (100 - HOUSE_EDGE_PERCENT) / 100

def betsOf (s : State) (p : Nat) : List Bet := alookupD [] s.playerBets p

def getBetAt (s : State) (p i : Nat) : Option Bet := (betsOf s p)[i]?

def betClaimed (s : State) (p i : Nat) : Bool :=
  match getBetAt s p i with
  | some b => b.claimed
  | none => false

/-- `click(dataHash, betAmount, multiplier)` of the reserved-liability
revision: admission is `balance + netBet ≥ outstanding + payout`, then the
worst-case payout is reserved. -/
def click (s : State) (sender bn dataHash betAmount multiplier : Nat) :
    Except Err State :=
  if s.paused then .error .gamePaused
  else if dataHash = 0 then .error .emptyHash
  else if isValidBet betAmount = false then .error .invalidBetAmount
  else if isValidMultiplier multiplier = false then .error .invalidMultiplier
  else
    let payout := payoutOf betAmount multiplier
    let netBet := betAmount - betAmount * BURN_PERCENT / 100
    if s.balance + netBet < s.totalOutstandingPotentialPayouts + payout then
      .error .houseUnderfunded
    else
      match pullFrom s sender betAmount with
      | .error e => .error e
      | .ok s1 =>
        let burnAmount := betAmount * BURN_PERCENT / 100
        match pushTo s1 BURN_ADDRESS burnAmount with
        | .error e => .error e
        | .ok s2 =>
          .ok { s2 with
            totalBurned := s2.totalBurned + burnAmount,
            playerBets := aset s2.playerBets sender
              (betsOf s2 sender ++ [⟨dataHash, bn, betAmount, multiplier, false⟩]),
            totalOutstandingPotentialPayouts :=
              s2.totalOutstandingPotentialPayouts + payout,
            totalBets := s2.totalBets + 1,
            totalBetAmount := s2.totalBetAmount + betAmount }

/-- `_reveal` of the reserved-liability revision: single win check
`keccak256(secret, blockhash) % multiplier == 0`, releases the reservation,
pays the full worst-case payout. The `-=` on the outstanding counter is
embedded with its Solidity 0.8 underflow revert. -/
def revealInner (C : Crypto) (bh : Nat → Nat) (bn : Nat) (s : State)
    (player betIndex secret salt : Nat) : Except Err State :=
  match getBetAt s player betIndex with
  | none => .error .invalidBetIndex
  | some b =>
    if b.commitBlock = 0 then .error .noBetFound
    else if b.claimed then .error .alreadyClaimed
    else if bn ≤ b.commitBlock then .error .waitOneBlock
    else
      let commitBlockHash := bh b.commitBlock
      if commitBlockHash = 0 then .error .betExpired
      else if C.pairHash secret salt ≠ b.dataHash then .error .hashMismatch
      else if C.winSeed secret commitBlockHash % b.multiplier ≠ 0 then
        .error .notAWinner
      else
        let payout := payoutOf b.betAmount b.multiplier
        if s.totalOutstandingPotentialPayouts < payout then
          .error .outstandingUnderflow
        else
          let s1 := { s with
            playerBets := aset s.playerBets player
              ((betsOf s player).set betIndex { b with claimed := true }),
            totalOutstandingPotentialPayouts :=
              s.totalOutstandingPotentialPayouts - payout,
            totalWins := s.totalWins + 1,
            totalPaidOut := s.totalPaidOut + payout }
          pushTo s1 player payout

def reveal (C : Crypto) (bh : Nat → Nat) (bn : Nat) (s : State)
    (sender betIndex secret salt : Nat) : Except Err State :=
  revealInner C bh bn s sender betIndex secret salt

def revealMany (C : Crypto) (bh : Nat → Nat) (bn p : Nat) :
    State → List (Nat × Nat × Nat) → Except Err State
  | s, [] => .ok s
  | s, (i, sec, sal) :: rest =>
    match revealInner C bh bn s p i sec sal with
    | .error e => .error e
    | .ok s' => revealMany C bh bn p s' rest

def batchReveal (C : Crypto) (bh : Nat → Nat) (bn : Nat) (s : State)
    (sender : Nat) (betIndices secrets salts : List Nat) : Except Err State :=
  if betIndices.length = secrets.length ∧ secrets.length = salts.length then
    if betIndices.length ≤ 20 then
      revealMany C bh bn sender s (betIndices.zip (secrets.zip salts))
    else .error .tooManyReveals
  else .error .arrayLengthMismatch

/-- `forfeit(betIndex)`: caller abandons an unclaimed bet strictly after its
commit block; marks it claimed, releases the full worst-case reservation,
moves no tokens. -/
def forfeit (s : State) (sender bn betIndex : Nat) : Except Err State :=
  match getBetAt s sender betIndex with
  | none => .error .invalidBetIndex
  | some b =>
    if b.commitBlock = 0 then .error .noBetFound
    else if b.claimed then .error .alreadyClaimed
    else if bn ≤ b.commitBlock then .error .waitOneBlock
    else
      let payout := payoutOf b.betAmount b.multiplier
      if s.totalOutstandingPotentialPayouts < payout then
        .error .outstandingUnderflow
      else
        .ok { s with
          playerBets := aset s.playerBets sender
            ((betsOf s sender).set betIndex { b with claimed := true }),
          totalOutstandingPotentialPayouts :=
            s.totalOutstandingPotentialPayouts - payout }

def requestWithdraw (s : State) (sender t dst : Nat) : Except Err State :=
  if sender ≠ s.owner then .error .notOwner
  else if dst = 0 then .error .invalidAddress
  else if s.withdrawRequestedAt ≠ 0 then .error .withdrawalPending
  else .ok { s with paused := true, withdrawRequestedAt := t, withdrawTo := dst }

def cancelWithdraw (s : State) (sender : Nat) : Except Err State :=
  if sender ≠ s.owner then .error .notOwner
  else .ok { s with withdrawRequestedAt := 0, withdrawTo := 0, paused := false }

/-- `executeWithdraw` of the reserved-liability revision: transfers only
`balance − totalOutstandingPotentialPayouts` and requires it positive. -/
def executeWithdraw (s : State) (sender t : Nat) : Except Err State :=
  if sender ≠ s.owner then .error .notOwner
  else if s.withdrawRequestedAt = 0 then .error .noWithdrawalRequested
  else if t < s.withdrawRequestedAt + WITHDRAW_DELAY then .error .delayNotMet
  else if s.balance ≤ s.totalOutstandingPotentialPayouts then
    .error .insufficientBalance
  else
    pushTo { s with withdrawRequestedAt := 0, withdrawTo := 0 } s.withdrawTo
      (s.balance - s.totalOutstandingPotentialPayouts)

def unpause (s : State) (sender : Nat) : Except Err State :=
  if sender ≠ s.owner then .error .notOwner
  else if s.withdrawRequestedAt ≠ 0 then .error .cancelWithdrawalFirst
  else .ok { s with paused := false }

def proposeOwner (s : State) (sender newOwner : Nat) : Except Err State :=
  if sender ≠ s.owner then .error .notOwner
  else if newOwner = 0 then .error .invalidOwner
  else .ok { s with pendingOwner := newOwner }

def acceptOwnership (s : State) (sender : Nat) : Except Err State :=
  if sender ≠ s.pendingOwner then .error .notPendingOwner
  else .ok { s with owner := sender, pendingOwner := 0 }

/-- One external state-changing call of the reserved-liability revision. -/
inductive Op where
  | clickOp (sender bn dataHash betAmount multiplier : Nat)
  | revealOp (sender bn betIndex secret salt : Nat) (bh : Nat → Nat)
  | batchOp (sender bn : Nat) (betIndices secrets salts : List Nat) (bh : Nat → Nat)
  | forfeitOp (sender bn betIndex : Nat)
  | requestW (sender t dst : Nat)
  | cancelW (sender : Nat)
  | executeW (sender t : Nat)
  | unpauseOp (sender : Nat)
  | proposeOp (sender newOwner : Nat)
  | acceptOp (sender : Nat)

def stepOp (C : Crypto) (s : State) : Op → Except Err State
  | .clickOp sender bn dh ba m => click s sender bn dh ba m
  | .revealOp sender bn i sec sal bh => reveal C bh bn s sender i sec sal
  | .batchOp sender bn idx secs sals bh => batchReveal C bh bn s sender idx secs sals
  | .forfeitOp sender bn i => forfeit s sender bn i
  | .requestW sender t dst => requestWithdraw s sender t dst
  | .cancelW sender => cancelWithdraw s sender
  | .executeW sender t => executeWithdraw s sender t
  | .unpauseOp sender => unpause s sender
  | .proposeOp sender newOwner => proposeOwner s sender newOwner
  | .acceptOp sender => acceptOwnership s sender

/-- Reachable states of the reserved-liability revision. -/
inductive Reach (C : Crypto) : State → Prop where
  | init : ∀ ownerAddr pool funds, Reach C (initState ownerAddr pool funds)
  | step : ∀ s op s', Reach C s → stepOp C s op = .ok s' → Reach C s'

/-- `op` targets `forfeit` of bet `(p, i)`. -/
def IsForfeitOf (p i : Nat) : Op → Prop
  | .forfeitOp sender _ j => sender = p ∧ j = i
  | _ => False

/-- Well-formedness of a call's chain environment relative to a lower block
bound: reveal-style calls run at some block `≥ lo` with an EVM-consistent
blockhash function. -/
def OpWF (lo : Nat) : Op → Prop
  | .revealOp _ bn _ _ _ bh => lo ≤ bn ∧ EVMBlockhash bh bn
  | .batchOp _ bn _ _ _ bh => lo ≤ bn ∧ EVMBlockhash bh bn
  | _ => True

end V2

/-! ## Concrete instantiations used by counterexamples and witnesses -/

/-- A concrete stand-in for keccak256 under which every roll wins
(`seed % multiplier = 0`). The engine never relies on any property of the
hash beyond equality tests and reduction, so any function is admissible. -/
def winCrypto : Crypto :=
  { pairHash := fun a b => a + b + 1, rollSeed := fun _ _ _ => 0,
    winSeed := fun _ _ => 0 }

/-- A concrete stand-in for keccak256 under which no roll ever wins
(`seed % multiplier = 1` for every multiplier ≥ 2). -/
def loseCrypto : Crypto :=
  { pairHash := fun a b => a + b + 1, rollSeed := fun _ _ _ => 1,
    winSeed := fun _ _ => 1 }

/-- The blockhash environment of a chain sitting at block `n`: block `b`
hashes to the nonzero value `b + 1` while available, `0` once evicted —
exactly the `EVMBlockhash` discipline. -/
def bh256 (n : Nat) : Nat → Nat :=
  fun b => if b < n ∧ n ≤ b + 256 then b + 1 else 0

/-- Funded deployment used by the claim-1 trace: pool 20 000 CLAWD-wei
short-scale (20 000e18), player `1` holding 2 100e18, owner `7`. -/
def c1s0 : V3.State := V3.initState 7 (20000 * 10 ^ 18) [(1, 2100 * 10 ^ 18)]

/-- Claim-1 trace: one admitted commit, then a requested and executed owner
withdrawal, every call completing. -/
def c1trace : Except Err V3.State :=
  (V3.click c1s0 1 5 1 (2000 * 10 ^ 18) 2 1).bind fun s1 =>
    (V3.requestWithdraw s1 7 1000 9).bind fun s2 =>
      V3.executeWithdraw s2 7 1900

def w1s1 : V3.State := (V3.click c1s0 1 5 1 (2000 * 10 ^ 18) 2 1).toOption.getD default
def w1s2 : V3.State := (V3.requestWithdraw w1s1 7 1000 9).toOption.getD default
def w1s3 : V3.State := (V3.executeWithdraw w1s2 7 1900).toOption.getD default

/-- Funded deployment used by the claim-2 counterexample: pool 19 400e18. -/
def c2s0 : V3.State := V3.initState 7 (19400 * 10 ^ 18) [(1, 2000 * 10 ^ 18)]

def c6s0 : V3.State := V3.initState 7 (20000 * 10 ^ 18) [(1, 3000 * 10 ^ 18)]
def c6op1 : V3.Op := V3.Op.click4 1 5 10 (2000 * 10 ^ 18) 2 1
def c6s1 : V3.State := (V3.stepOp winCrypto c6s0 c6op1).toOption.getD default
def c6op2 : V3.Op := V3.Op.revealOp 1 6 0 4 5 (bh256 6)
def c6s2 : V3.State := (V3.stepOp winCrypto c6s1 c6op2).toOption.getD default
/-- The single ledger entry of `c6s1` (committed in block 5, unclaimed). -/
def c6bet : V3.Bet := ⟨10, 5, 2000 * 10 ^ 18, 2, 1, false⟩

def c10s0 : V3.State := V3.initState 7 (40000 * 10 ^ 18) [(1, 4200 * 10 ^ 18)]
def c10s1 : V3.State :=
  ((V3.click c10s0 1 5 10 (2000 * 10 ^ 18) 2 1).bind fun s =>
      V3.click s 1 5 10 (2000 * 10 ^ 18) 2 1).toOption.getD default
def c10s2 : V3.State :=
  (V3.batchReveal winCrypto (bh256 6) 6 c10s1 1 [0, 1] [4, 4] [5, 5]).toOption.getD default

/-- A reserved-liability-revision state with one open bet (10 000e18 at 2x,
committed in block 5) whose worst case, 19 600e18, is reserved. -/
def c3s : V2.State :=
  { balance := 50000 * 10 ^ 18, bals := [], owner := 7, pendingOwner := 0,
    playerBets := [(1, [⟨10, 5, 10000 * 10 ^ 18, 2, false⟩])], paused := false,
    withdrawRequestedAt := 0, withdrawTo := 0,
    totalOutstandingPotentialPayouts := 19600 * 10 ^ 18, totalBets := 1,
    totalWins := 0, totalBetAmount := 10000 * 10 ^ 18, totalPaidOut := 0,
    totalBurned := 0 }

def c3bet : V2.Bet := ⟨10, 5, 10000 * 10 ^ 18, 2, false⟩

/-! ## Helper lemmas -/

theorem alookupD_aset_self {α : Type} (d : α) (l : List (Nat × α)) (k : Nat) (v : α) :
    alookupD d (aset l k v) k = v := by
  induction l with
  | nil => simp [aset, alookupD]
  | cons hd tl ih =>
    obtain ⟨k', v'⟩ := hd
    by_cases hk : k = k' <;> simp [aset, alookupD, hk, ih]

theorem alookupD_aset_ne {α : Type} (d : α) (l : List (Nat × α)) (k q : Nat) (v : α)
    (h : q ≠ k) : alookupD d (aset l k v) q = alookupD d l q := by
  induction l with
  | nil => simp [aset, alookupD, h]
  | cons hd tl ih =>
    obtain ⟨k', v'⟩ := hd
    by_cases hk : k = k'
    · subst hk
      simp [aset, alookupD, h]
    · by_cases hq : q = k' <;> simp [aset, alookupD, hk, hq, ih]

/-- Dividing an exact multiple of 100 first and multiplying afterwards agrees
with multiplying first. -/
theorem div100_mul (a n : Nat) (h : 100 ∣ a) : a / 100 * n = a * n / 100 := by
  obtain ⟨k, rfl⟩ := h
  rw [Nat.mul_div_cancel_left k (by norm_num), Nat.mul_assoc,
    Nat.mul_div_cancel_left (k * n) (by norm_num)]

/-- Every enumerated stake tier is an exact multiple of 100 base units. -/
theorem valid_bet_dvd (ba : Nat) (h : ba ∈ V3.VALID_BETS) : 100 ∣ ba := by
  simp only [V3.VALID_BETS, List.mem_cons, List.mem_singleton, List.not_mem_nil,
    or_false] at h
  rcases h with rfl | rfl | rfl | rfl | rfl | rfl <;> decide

/-! ## Claims about the payout arithmetic (C4, C8) -/

/-- C4. Worst-case payout formula: on every enumerated stake, enumerated
multiplier and roll count in [1, 20], the amount the commit path computes
(`maxPayout`, lines 102–103: division by 100 before the multiplication by
`numRolls`) coincides with the spec's `stake × multiplier × (100 − 2) × rollCount / 100`
with every multiplication evaluated before the division — the tiers are
multiples of 100, so the early division truncates nothing. -/
theorem claim4_worst_case_payout (ba m nr : Nat) (hb : ba ∈ V3.VALID_BETS)
    (hm : m ∈ V3.VALID_MULTIPLIERS) (h1 : 1 ≤ nr) (h2 : nr ≤ V3.MAX_ROLLS) :
    V3.maxPayout ba m nr = ba * m * (100 - 2) * nr / 100 := by
  have hd : 100 ∣ ba * m * (100 - 2) :=
    Dvd.dvd.mul_right (Dvd.dvd.mul_right (valid_bet_dvd ba hb) m) _
  unfold V3.maxPayout V3.singlePayout V3.HOUSE_EDGE_PERCENT
  exact div100_mul _ nr hd

/-- Witness for C4 at the spec's own example: stake 10 000 tokens,
multiplier 1024, one roll gives 10 035 200 tokens (in 10^18 base units). -/
theorem claim4_witness :
    (10000 * 10 ^ 18 ∈ V3.VALID_BETS) ∧ (1024 ∈ V3.VALID_MULTIPLIERS) ∧
    V3.maxPayout (10000 * 10 ^ 18) 1024 1 = 10035200 * 10 ^ 18 :=
  ⟨by decide, by decide,
    (claim4_worst_case_payout (10000 * 10 ^ 18) 1024 1 (by decide) (by decide)
        (by decide) (by decide)).trans (by norm_num)⟩

/-- C8. Exactness of the realized payout: for every enumerated stake and
multiplier and every win count in [1, 20], the reveal-path integer
expression `(s × m × 98) / 100 * wins` (line 208) equals the exact rational
value `s × m × 98 × wins / 100`: the early division introduces no
truncation on the valid domain. -/
theorem claim8_payout_exact (ba m w : Nat) (hb : ba ∈ V3.VALID_BETS)
    (hm : m ∈ V3.VALID_MULTIPLIERS) (h1 : 1 ≤ w) (h2 : w ≤ 20) :
    (V3.grossPayout ba m w : ℚ) = (ba : ℚ) * m * 98 * w / 100 := by
  have hd : 100 ∣ ba * m * (100 - V3.HOUSE_EDGE_PERCENT) :=
    Dvd.dvd.mul_right (Dvd.dvd.mul_right (valid_bet_dvd ba hb) m) _
  obtain ⟨k, hk⟩ := hd
  have h98 : ba * m * 98 = 100 * k := by
    have : (100 - V3.HOUSE_EDGE_PERCENT) = 98 := by decide
    rw [this] at hk
    exact hk
  unfold V3.grossPayout
  rw [hk, Nat.mul_div_cancel_left k (by norm_num)]
  have hcast : (ba : ℚ) * m * 98 = 100 * k := by
    exact_mod_cast congrArg (Nat.cast : Nat → ℚ) h98
  push_cast
  rw [hcast]
  ring

/-- Witness for C8 at stake 10 000 tokens, multiplier 1024, one win. -/
theorem claim8_witness :
    (10000 * 10 ^ 18 ∈ V3.VALID_BETS) ∧
    (V3.grossPayout (10000 * 10 ^ 18) 1024 1 : ℚ) =
      ((10000 * 10 ^ 18 : Nat) : ℚ) * 1024 * 98 * 1 / 100 :=
  ⟨by decide,
    claim8_payout_exact (10000 * 10 ^ 18) 1024 1 (by decide) (by decide)
      (by decide) (by decide)⟩

/-! ## C9: the legacy three-argument commit is the four-argument commit at
one roll -/

/-- The two commit entry points agree at `numRolls = 1` (helper form usable
by later lemmas). -/
theorem legacy_click_eq (s : V3.State) (sender bn dh ba m : Nat) :
    V3.clickLegacy s sender bn dh ba m = V3.click s sender bn dh ba m 1 := by
  unfold V3.click V3.clickLegacy V3.maxPayout V3.MAX_ROLLS
  norm_num

/-- C9. The legacy `click(dataHash, betAmount, multiplier)` (lines 136–167)
is observationally equivalent to `click(dataHash, betAmount, multiplier, 1)`
(lines 94–133): on every state and input both return the same result —
same error or same post-state (token movements, appended `Bet` record with
`numRolls = 1`, counters). -/
theorem claim9_legacy_equivalence (s : V3.State) (sender bn dh ba m : Nat) :
    V3.clickLegacy s sender bn dh ba m = V3.click s sender bn dh ba m 1 :=
  legacy_click_eq s sender bn dh ba m

/-! ## C5, C7: the reveal window and the zero-win reveal -/

/-- C5. Reveal window boundaries (lines 189–192): on any unclaimed bet, a
reveal at or before the commit block fails `Wait one block`; a reveal more
than `REVEAL_WINDOW = 256` blocks after the commit block finds
`blockhash = 0` and fails `Bet expired`; a reveal at the last in-window
block (`commitBlock + 256`) with the matching secret/salt and at least one
winning roll succeeds (given the pool can fund the payout, which "otherwise
valid" presumes). -/
theorem claim5_reveal_window (C : Crypto) (bh : Nat → Nat) (bn : Nat) (s : V3.State)
    (p i sec sal : Nat) (b : V3.Bet)
    (hb : V3.getBetAt s p i = some b) (hcb : b.commitBlock ≠ 0)
    (hnc : b.claimed = false) (hevm : EVMBlockhash bh bn) :
    (bn ≤ b.commitBlock →
      V3.revealInner C bh bn s p i sec sal = .error .waitOneBlock) ∧
    (b.commitBlock + V3.REVEAL_WINDOW < bn →
      V3.revealInner C bh bn s p i sec sal = .error .betExpired) ∧
    (bn = b.commitBlock + V3.REVEAL_WINDOW →
      C.pairHash sec sal = b.dataHash →
      0 < V3.countWins C.rollSeed sec (bh b.commitBlock) b.multiplier b.numRolls →
      V3.grossPayout b.betAmount b.multiplier
        (V3.countWins C.rollSeed sec (bh b.commitBlock) b.multiplier b.numRolls) ≤
          s.balance →
      isOk (V3.revealInner C bh bn s p i sec sal) = true) := by
  refine ⟨?_, ?_, ?_⟩
  · intro hle
    simp only [V3.revealInner, hb]
    rw [if_neg hcb, if_neg (by simp [hnc]), if_pos hle]
  · intro hexp
    rw [V3.REVEAL_WINDOW] at hexp
    have hgt : ¬ bn ≤ b.commitBlock := by omega
    have hbh0 : bh b.commitBlock = 0 := by
      by_contra h0
      exact absurd ((hevm b.commitBlock).1 h0).2 (by omega)
    simp only [V3.revealInner, hb]
    rw [if_neg hcb, if_neg (by simp [hnc]), if_neg hgt, if_pos hbh0]
  · intro hlast hhash hwin hbal
    rw [V3.REVEAL_WINDOW] at hlast
    have hgt : ¬ bn ≤ b.commitBlock := by omega
    have hbhnz : bh b.commitBlock ≠ 0 :=
      (hevm b.commitBlock).2 ⟨by omega, by omega⟩
    simp only [V3.revealInner, hb]
    rw [if_neg hcb, if_neg (by simp [hnc]), if_neg hgt, if_neg (by simpa using hbhnz),
      if_neg (show ¬ C.pairHash sec sal ≠ b.dataHash from fun h => h hhash),
      if_neg (show ¬ V3.countWins C.rollSeed sec (bh b.commitBlock) b.multiplier
          b.numRolls = 0 by omega)]
    have hburn : V3.grossPayout b.betAmount b.multiplier
        (V3.countWins C.rollSeed sec (bh b.commitBlock) b.multiplier b.numRolls) *
          V3.BURN_PERCENT / 100 ≤ s.balance := by
      calc V3.grossPayout b.betAmount b.multiplier _ * V3.BURN_PERCENT / 100
          ≤ V3.grossPayout b.betAmount b.multiplier _ * V3.BURN_PERCENT :=
            Nat.div_le_self _ 100
        _ = V3.grossPayout b.betAmount b.multiplier _ := by
            rw [V3.BURN_PERCENT, Nat.mul_one]
        _ ≤ s.balance := hbal
    have h2 : V3.grossPayout b.betAmount b.multiplier
        (V3.countWins C.rollSeed sec (bh b.commitBlock) b.multiplier b.numRolls) -
          V3.grossPayout b.betAmount b.multiplier
            (V3.countWins C.rollSeed sec (bh b.commitBlock) b.multiplier b.numRolls) *
            V3.BURN_PERCENT / 100 ≤
        s.balance -
          V3.grossPayout b.betAmount b.multiplier
            (V3.countWins C.rollSeed sec (bh b.commitBlock) b.multiplier b.numRolls) *
            V3.BURN_PERCENT / 100 :=
      Nat.sub_le_sub_right hbal _
    simp [V3.pushTo, isOk, hburn, h2]

/-- C7. A reveal with the right secret, inside the window, on an unclaimed
bet, where every roll loses, fails with the no-winning-roll error
(lines 198–206); the revert means no token moves and the stored bet is
left untouched — still unclaimed and revealable. -/
theorem claim7_zero_win_reveal (C : Crypto) (bh : Nat → Nat) (bn : Nat) (s : V3.State)
    (p i sec sal : Nat) (b : V3.Bet)
    (hb : V3.getBetAt s p i = some b) (hcb : b.commitBlock ≠ 0)
    (hnc : b.claimed = false) (hbn : b.commitBlock < bn)
    (hbh : bh b.commitBlock ≠ 0)
    (hhash : C.pairHash sec sal = b.dataHash)
    (hlose : V3.countWins C.rollSeed sec (bh b.commitBlock) b.multiplier b.numRolls = 0) :
    V3.revealInner C bh bn s p i sec sal = .error .noWinningRolls := by
  simp only [V3.revealInner, hb]
  rw [if_neg hcb, if_neg (by simp [hnc]), if_neg (by omega),
    if_neg (by simpa using hbh),
    if_neg (show ¬ C.pairHash sec sal ≠ b.dataHash from fun h => h hhash),
    if_pos hlose]

/-- The concrete `bh256` environment satisfies the EVM blockhash
discipline. -/
theorem evmvalid_bh256 (n : Nat) : EVMBlockhash (bh256 n) n := by
  intro b
  unfold bh256
  split <;> simp_all

/-- Witness for C5: on the bet committed in block 5, revealing at block 262
(window closed) fails expired, and revealing at block 261 (last in-window
block) with the right secret and a winning roll succeeds. -/
theorem claim5_witness :
    V3.revealInner winCrypto (bh256 262) 262 c6s1 1 0 4 5 = .error .betExpired ∧
    isOk (V3.revealInner winCrypto (bh256 261) 261 c6s1 1 0 4 5) = true :=
  ⟨(claim5_reveal_window winCrypto (bh256 262) 262 c6s1 1 0 4 5 c6bet (by decide)
      (by decide) (by decide) (evmvalid_bh256 262)).2.1 (by decide),
   (claim5_reveal_window winCrypto (bh256 261) 261 c6s1 1 0 4 5 c6bet (by decide)
      (by decide) (by decide) (evmvalid_bh256 261)).2.2 (by decide) (by decide)
      (by decide) (by decide)⟩

/-- Witness for C7: with a never-winning hash stand-in the same in-window
reveal fails with the no-winning-roll error. -/
theorem claim7_witness :
    V3.revealInner loseCrypto (bh256 6) 6 c6s1 1 0 4 5 = .error .noWinningRolls :=
  claim7_zero_win_reveal loseCrypto (bh256 6) 6 c6s1 1 0 4 5 c6bet (by decide)
    (by decide) (by decide) (by decide) (by decide) (by decide) (by decide)

theorem pullFrom_bets {s s' : V3.State} {p a : Nat} (h : V3.pullFrom s p a = .ok s') :
    s'.playerBets = s.playerBets := by
  simp only [V3.pullFrom] at h
  split at h
  · injection h with h
    subst h
    rfl
  · exact Except.noConfusion h

theorem pushTo_bets {s s' : V3.State} {d a : Nat} (h : V3.pushTo s d a = .ok s') :
    s'.playerBets = s.playerBets := by
  simp only [V3.pushTo] at h
  split at h
  · injection h with h
    subst h
    rfl
  · exact Except.noConfusion h

theorem click_ok_bets {s s' : V3.State} {sender bn dh ba m nr : Nat}
    (h : V3.click s sender bn dh ba m nr = .ok s') :
    s'.playerBets = aset s.playerBets sender
      (V3.betsOf s sender ++ [⟨dh, bn, ba, m, nr, false⟩]) := by
  simp only [V3.click] at h
  iterate 7 (split at h <;> first | exact Except.noConfusion h | skip)
  split at h
  next => exact Except.noConfusion h
  next s1 hpull =>
    split at h
    next => exact Except.noConfusion h
    next s2 hpush =>
      injection h with h
      subst h
      simp only [V3.betsOf, pushTo_bets hpush, pullFrom_bets hpull]

theorem revealInner_ok_anatomy {C : Crypto} {bh : Nat → Nat} {bn : Nat}
    {s s' : V3.State} {p i sec sal : Nat}
    (h : V3.revealInner C bh bn s p i sec sal = .ok s') :
    ∃ b : V3.Bet, V3.getBetAt s p i = some b ∧ b.claimed = false ∧
      b.commitBlock ≠ 0 ∧
      s'.playerBets = aset s.playerBets p
        ((V3.betsOf s p).set i { b with claimed := true }) := by
  cases hg : V3.getBetAt s p i with
  | none =>
    simp only [V3.revealInner, hg] at h
    exact Except.noConfusion h
  | some b =>
    simp only [V3.revealInner, hg] at h
    split at h
    · exact Except.noConfusion h
    rename_i hcb
    split at h
    · exact Except.noConfusion h
    rename_i hcl
    split at h
    · exact Except.noConfusion h
    split at h
    · exact Except.noConfusion h
    split at h
    · exact Except.noConfusion h
    split at h
    · exact Except.noConfusion h
    split at h
    · exact Except.noConfusion h
    rename_i s2 hpush1
    split at h
    · exact Except.noConfusion h
    rename_i s3 hpush2
    injection h with h
    subst h
    exact ⟨b, rfl, by simpa using hcl, hcb,
      by simp only [V3.betsOf, pushTo_bets hpush2, pushTo_bets hpush1]⟩

theorem betClaimed_click_mono {s s' : V3.State} {sender bn dh ba m nr q j : Nat}
    (h : V3.click s sender bn dh ba m nr = .ok s')
    (hc : V3.betClaimed s q j = true) : V3.betClaimed s' q j = true := by
  have hb := click_ok_bets h
  simp only [V3.betsOf] at hb
  simp only [V3.betClaimed, V3.getBetAt, V3.betsOf] at hc ⊢
  rw [hb]
  by_cases hq : q = sender
  · subst hq
    rw [alookupD_aset_self]
    cases hj : (alookupD [] s.playerBets q)[j]? with
    | none => rw [hj] at hc; exact absurd hc (by simp)
    | some b =>
      rw [hj] at hc
      have hlt : j < (alookupD [] s.playerBets q).length :=
        (List.getElem?_eq_some.mp hj).1
      rw [List.getElem?_append_left hlt, hj]
      exact hc
  · rw [alookupD_aset_ne _ _ _ _ _ hq]
    exact hc

theorem betClaimed_reveal_mono {C : Crypto} {bh : Nat → Nat} {bn : Nat}
    {s s' : V3.State} {p i sec sal q j : Nat}
    (h : V3.revealInner C bh bn s p i sec sal = .ok s')
    (hc : V3.betClaimed s q j = true) : V3.betClaimed s' q j = true := by
  obtain ⟨b, hg, hbc, hnz, hb⟩ := revealInner_ok_anatomy h
  simp only [V3.betsOf] at hb
  simp only [V3.getBetAt, V3.betsOf] at hg
  simp only [V3.betClaimed, V3.getBetAt, V3.betsOf] at hc ⊢
  rw [hb]
  by_cases hq : q = p
  · subst hq
    rw [alookupD_aset_self]
    rw [List.getElem?_set]
    by_cases hij : i = j
    · subst hij
      have hlt : i < (alookupD [] s.playerBets q).length :=
        (List.getElem?_eq_some.mp hg).1
      rw [if_pos rfl, if_pos hlt]
    · rw [if_neg hij]
      exact hc
  · rw [alookupD_aset_ne _ _ _ _ _ hq]
    exact hc

theorem betClaimed_revealMany_mono {C : Crypto} {bh : Nat → Nat} {bn p : Nat} :
    ∀ (l : List (Nat × Nat × Nat)) (s s' : V3.State),
      V3.revealMany C bh bn p s l = .ok s' →
      ∀ q j, V3.betClaimed s q j = true → V3.betClaimed s' q j = true := by
  intro l
  induction l with
  | nil =>
    intro s s' h q j hc
    simp only [V3.revealMany] at h
    injection h with h
    subst h
    exact hc
  | cons hd tl ih =>
    intro s s' h q j hc
    obtain ⟨i, sec, sal⟩ := hd
    simp only [V3.revealMany] at h
    split at h
    · exact Except.noConfusion h
    rename_i s1 h1
    exact ih s1 s' h q j (betClaimed_reveal_mono h1 hc)

theorem revealInner_claimed_not_ok (C : Crypto) (bh : Nat → Nat) (bn : Nat)
    (s : V3.State) (p i sec sal : Nat) (hc : V3.betClaimed s p i = true) :
    isOk (V3.revealInner C bh bn s p i sec sal) = false := by
  unfold V3.betClaimed at hc
  cases hg : V3.getBetAt s p i with
  | none => rw [hg] at hc; exact absurd hc (by simp)
  | some b =>
    rw [hg] at hc
    simp only [V3.revealInner, hg]
    by_cases hcb : b.commitBlock = 0
    · rw [if_pos hcb]; rfl
    · rw [if_neg hcb, if_pos hc]; rfl

theorem betClaimed_congr {s s' : V3.State} (h : s'.playerBets = s.playerBets) (q j : Nat) :
    V3.betClaimed s' q j = V3.betClaimed s q j := by
  simp [V3.betClaimed, V3.getBetAt, V3.betsOf, h]

theorem revealMany_claimed_not_ok (C : Crypto) (bh : Nat → Nat) (bn p : Nat) :
    ∀ (l : List (Nat × Nat × Nat)) (s : V3.State) (i : Nat),
      V3.betClaimed s p i = true → i ∈ l.map (·.1) →
      isOk (V3.revealMany C bh bn p s l) = false := by
  intro l
  induction l with
  | nil =>
    intro s i hc hm
    simp at hm
  | cons hd tl ih =>
    intro s i hc hm
    obtain ⟨j, sec, sal⟩ := hd
    simp only [V3.revealMany]
    cases hr : V3.revealInner C bh bn s p j sec sal with
    | error e => rfl
    | ok s1 =>
      simp only [List.map_cons, List.mem_cons] at hm
      rcases hm with hm | hm
      · subst hm
        have hko := revealInner_claimed_not_ok C bh bn s p i sec sal hc
        rw [hr] at hko
        exact absurd hko (by simp [isOk])
      · exact ih s1 i (betClaimed_reveal_mono hr hc) hm

theorem revealInner_ok_claimed {C : Crypto} {bh : Nat → Nat} {bn : Nat}
    {s s' : V3.State} {p i sec sal : Nat}
    (h : V3.revealInner C bh bn s p i sec sal = .ok s') :
    V3.betClaimed s' p i = true := by
  obtain ⟨b, hg, hbc, hnz, hb⟩ := revealInner_ok_anatomy h
  simp only [V3.getBetAt, V3.betsOf] at hg
  simp only [V3.betsOf] at hb
  simp only [V3.betClaimed, V3.getBetAt, V3.betsOf, hb]
  rw [alookupD_aset_self]
  have hlt : i < (alookupD [] s.playerBets p).length := (List.getElem?_eq_some.mp hg).1
  rw [List.getElem?_set, if_pos rfl, if_pos hlt]

theorem revealMany_ok_anatomy {C : Crypto} {bh : Nat → Nat} {bn p : Nat} :
    ∀ (l : List (Nat × Nat × Nat)) (s s' : V3.State),
      V3.revealMany C bh bn p s l = .ok s' →
      (l.map (·.1)).Nodup ∧ ∀ e ∈ l, V3.betClaimed s' p e.1 = true := by
  intro l
  induction l with
  | nil =>
    intro s s' h
    refine ⟨by simp, ?_⟩
    intro e he
    simp at he
  | cons hd tl ih =>
    intro s s' h
    obtain ⟨j, sec, sal⟩ := hd
    simp only [V3.revealMany] at h
    split at h
    · exact Except.noConfusion h
    rename_i s1 h1
    obtain ⟨hnd, hall⟩ := ih s1 s' h
    have hcl1 : V3.betClaimed s1 p j = true := revealInner_ok_claimed h1
    have hnotin : j ∉ tl.map (·.1) := by
      intro hmem
      have hko := revealMany_claimed_not_ok C bh bn p tl s1 j hcl1 hmem
      rw [h] at hko
      exact absurd hko (by simp [isOk])
    refine ⟨?_, ?_⟩
    · simpa using List.nodup_cons.mpr ⟨hnotin, hnd⟩
    · intro e he
      rcases List.mem_cons.mp he with rfl | he2
      · exact betClaimed_revealMany_mono tl s1 s' h p j hcl1
      · exact hall e he2

theorem requestWithdraw_bets {s s' : V3.State} {a t d : Nat}
    (h : V3.requestWithdraw s a t d = .ok s') : s'.playerBets = s.playerBets := by
  simp only [V3.requestWithdraw] at h
  split at h
  · exact Except.noConfusion h
  split at h
  · exact Except.noConfusion h
  split at h
  · exact Except.noConfusion h
  injection h with h
  subst h
  rfl

theorem cancelWithdraw_bets {s s' : V3.State} {a : Nat}
    (h : V3.cancelWithdraw s a = .ok s') : s'.playerBets = s.playerBets := by
  simp only [V3.cancelWithdraw] at h
  split at h
  · exact Except.noConfusion h
  injection h with h
  subst h
  rfl

theorem executeWithdraw_bets {s s' : V3.State} {a t : Nat}
    (h : V3.executeWithdraw s a t = .ok s') : s'.playerBets = s.playerBets := by
  simp only [V3.executeWithdraw] at h
  split at h
  · exact Except.noConfusion h
  split at h
  · exact Except.noConfusion h
  split at h
  · exact Except.noConfusion h
  rw [pushTo_bets h]

theorem unpause_bets {s s' : V3.State} {a : Nat}
    (h : V3.unpause s a = .ok s') : s'.playerBets = s.playerBets := by
  simp only [V3.unpause] at h
  split at h
  · exact Except.noConfusion h
  split at h
  · exact Except.noConfusion h
  injection h with h
  subst h
  rfl

theorem proposeOwner_bets {s s' : V3.State} {a n : Nat}
    (h : V3.proposeOwner s a n = .ok s') : s'.playerBets = s.playerBets := by
  simp only [V3.proposeOwner] at h
  split at h
  · exact Except.noConfusion h
  split at h
  · exact Except.noConfusion h
  injection h with h
  subst h
  rfl

theorem acceptOwnership_bets {s s' : V3.State} {a : Nat}
    (h : V3.acceptOwnership s a = .ok s') : s'.playerBets = s.playerBets := by
  simp only [V3.acceptOwnership] at h
  split at h
  · exact Except.noConfusion h
  injection h with h
  subst h
  rfl

theorem renounceOwnership_bets {s s' : V3.State} {a : Nat}
    (h : V3.renounceOwnership s a = .ok s') : s'.playerBets = s.playerBets := by
  simp only [V3.renounceOwnership] at h
  split at h
  · exact Except.noConfusion h
  injection h with h
  subst h
  rfl

theorem stepOp_claimed_mono {C : Crypto} {s : V3.State} {op : V3.Op} {s' : V3.State}
    (h : V3.stepOp C s op = .ok s') (q j : Nat)
    (hc : V3.betClaimed s q j = true) : V3.betClaimed s' q j = true := by
  cases op with
  | click4 sender bn dh ba m nr => exact betClaimed_click_mono h hc
  | click3 sender bn dh ba m =>
    have h' : V3.click s sender bn dh ba m 1 = .ok s' := by
      rw [← legacy_click_eq]
      exact h
    exact betClaimed_click_mono h' hc
  | revealOp sender bn i sec sal bh => exact betClaimed_reveal_mono h hc
  | batchOp sender bn idx secs sals bh =>
    simp only [V3.stepOp, V3.batchReveal] at h
    split at h
    · split at h
      · exact betClaimed_revealMany_mono _ _ _ h q j hc
      · exact Except.noConfusion h
    · exact Except.noConfusion h
  | requestW sender t d =>
    rw [betClaimed_congr (requestWithdraw_bets h)]
    exact hc
  | cancelW sender =>
    rw [betClaimed_congr (cancelWithdraw_bets h)]
    exact hc
  | executeW sender t =>
    rw [betClaimed_congr (executeWithdraw_bets h)]
    exact hc
  | unpauseOp sender =>
    rw [betClaimed_congr (unpause_bets h)]
    exact hc
  | proposeOp sender n =>
    rw [betClaimed_congr (proposeOwner_bets h)]
    exact hc
  | acceptOp sender =>
    rw [betClaimed_congr (acceptOwnership_bets h)]
    exact hc
  | renounceOp sender =>
    rw [betClaimed_congr (renounceOwnership_bets h)]
    exact hc

theorem click_preserves_nz {s s' : V3.State} {sender bn dh ba m nr : Nat}
    (h : V3.click s sender bn dh ba m nr = .ok s')
    (prev : ∀ q j b, V3.getBetAt s q j = some b → b.claimed = true → b.commitBlock ≠ 0) :
    ∀ q j b, V3.getBetAt s' q j = some b → b.claimed = true → b.commitBlock ≠ 0 := by
  intro q j b hg hbc
  have hpb := click_ok_bets h
  simp only [V3.betsOf] at hpb
  simp only [V3.getBetAt, V3.betsOf, hpb] at hg
  by_cases hq : q = sender
  · subst hq
    rw [alookupD_aset_self, List.getElem?_append] at hg
    split at hg
    · exact prev q j b (by simpa [V3.getBetAt, V3.betsOf] using hg) hbc
    · have hb := List.getElem?_mem hg
      simp only [List.mem_singleton] at hb
      subst hb
      simp at hbc
  · rw [alookupD_aset_ne _ _ _ _ _ hq] at hg
    exact prev q j b (by simpa [V3.getBetAt, V3.betsOf] using hg) hbc

theorem revealInner_preserves_nz {C : Crypto} {bh : Nat → Nat} {bn : Nat}
    {s s' : V3.State} {p i sec sal : Nat}
    (h : V3.revealInner C bh bn s p i sec sal = .ok s')
    (prev : ∀ q j b, V3.getBetAt s q j = some b → b.claimed = true → b.commitBlock ≠ 0) :
    ∀ q j b, V3.getBetAt s' q j = some b → b.claimed = true → b.commitBlock ≠ 0 := by
  intro q j b hg hbc
  obtain ⟨b0, hg0, hbc0, hnz0, hpb⟩ := revealInner_ok_anatomy h
  simp only [V3.betsOf] at hpb
  simp only [V3.getBetAt, V3.betsOf] at hg0
  simp only [V3.getBetAt, V3.betsOf, hpb] at hg
  by_cases hq : q = p
  · subst hq
    rw [alookupD_aset_self, List.getElem?_set] at hg
    split at hg
    · split at hg
      · injection hg with hg
        subst hg
        exact hnz0
      · exact Option.noConfusion hg
    · exact prev q j b (by simpa [V3.getBetAt, V3.betsOf] using hg) hbc
  · rw [alookupD_aset_ne _ _ _ _ _ hq] at hg
    exact prev q j b (by simpa [V3.getBetAt, V3.betsOf] using hg) hbc

theorem getBetAt_congr {s s' : V3.State} (h : s'.playerBets = s.playerBets) (q j : Nat) :
    V3.getBetAt s' q j = V3.getBetAt s q j := by
  simp [V3.getBetAt, V3.betsOf, h]

theorem revealMany_preserves_nz {C : Crypto} {bh : Nat → Nat} {bn p : Nat} :
    ∀ (l : List (Nat × Nat × Nat)) (s s' : V3.State),
      V3.revealMany C bh bn p s l = .ok s' →
      (∀ q j b, V3.getBetAt s q j = some b → b.claimed = true → b.commitBlock ≠ 0) →
      ∀ q j b, V3.getBetAt s' q j = some b → b.claimed = true → b.commitBlock ≠ 0 := by
  intro l
  induction l with
  | nil =>
    intro s s' h prev
    simp only [V3.revealMany] at h
    injection h with h
    subst h
    exact prev
  | cons hd tl ih =>
    intro s s' h prev
    obtain ⟨i, sec, sal⟩ := hd
    simp only [V3.revealMany] at h
    split at h
    · exact Except.noConfusion h
    rename_i s1 h1
    exact ih s1 s' h (revealInner_preserves_nz h1 prev)

theorem stepOp_preserves_nz {C : Crypto} {s : V3.State} {op : V3.Op} {s' : V3.State}
    (h : V3.stepOp C s op = .ok s')
    (prev : ∀ q j b, V3.getBetAt s q j = some b → b.claimed = true → b.commitBlock ≠ 0) :
    ∀ q j b, V3.getBetAt s' q j = some b → b.claimed = true → b.commitBlock ≠ 0 := by
  cases op with
  | click4 sender bn dh ba m nr => exact click_preserves_nz h prev
  | click3 sender bn dh ba m =>
    have h' : V3.click s sender bn dh ba m 1 = .ok s' := by
      rw [← legacy_click_eq]
      exact h
    exact click_preserves_nz h' prev
  | revealOp sender bn i sec sal bh => exact revealInner_preserves_nz h prev
  | batchOp sender bn idx secs sals bh =>
    simp only [V3.stepOp, V3.batchReveal] at h
    split at h
    · split at h
      · exact revealMany_preserves_nz _ _ _ h prev
      · exact Except.noConfusion h
    · exact Except.noConfusion h
  | requestW sender t d =>
    intro q j b hg
    rw [getBetAt_congr (requestWithdraw_bets h)] at hg
    exact prev q j b hg
  | cancelW sender =>
    intro q j b hg
    rw [getBetAt_congr (cancelWithdraw_bets h)] at hg
    exact prev q j b hg
  | executeW sender t =>
    intro q j b hg
    rw [getBetAt_congr (executeWithdraw_bets h)] at hg
    exact prev q j b hg
  | unpauseOp sender =>
    intro q j b hg
    rw [getBetAt_congr (unpause_bets h)] at hg
    exact prev q j b hg
  | proposeOp sender n =>
    intro q j b hg
    rw [getBetAt_congr (proposeOwner_bets h)] at hg
    exact prev q j b hg
  | acceptOp sender =>
    intro q j b hg
    rw [getBetAt_congr (acceptOwnership_bets h)] at hg
    exact prev q j b hg
  | renounceOp sender =>
    intro q j b hg
    rw [getBetAt_congr (renounceOwnership_bets h)] at hg
    exact prev q j b hg

/-- Reachability invariant: every claimed bet was claimed through `_reveal`,
which demanded a nonzero commit block. -/
theorem reach_claimed_nz {C : Crypto} {s : V3.State} (hr : V3.Reach C s) :
    ∀ q j b, V3.getBetAt s q j = some b → b.claimed = true → b.commitBlock ≠ 0 := by
  induction hr with
  | init ownerAddr pool funds =>
    intro q j b hg
    simp [V3.getBetAt, V3.betsOf, V3.initState, alookupD] at hg
  | step s op s' hreach hstep ih => exact stepOp_preserves_nz hstep ih

/-- C6. Claimed-flag monotonicity and reveal idempotence: in any reachable
state, a bet whose `claimed` flag is `true` makes every later reveal of that
index fail with the already-claimed error (line 188) — and inside a
`batchReveal` the whole batch aborts, so no tokens move; moreover no
operation of the engine (line 209 is the only write) ever resets a claimed
flag back to `false`. -/
theorem claim6_claimed_monotone (C : Crypto) (s : V3.State) (hr : V3.Reach C s)
    (p i : Nat) (hc : V3.betClaimed s p i = true) :
    (∀ bn bh sec sal, V3.revealInner C bh bn s p i sec sal = .error .alreadyClaimed) ∧
    (∀ bn bh idx secs sals s', i ∈ idx →
        V3.batchReveal C bh bn s p idx secs sals ≠ .ok s') ∧
    (∀ op s', V3.stepOp C s op = .ok s' → V3.betClaimed s' p i = true) := by
  have hsome : ∃ b, V3.getBetAt s p i = some b ∧ b.claimed = true := by
    unfold V3.betClaimed at hc
    cases hg : V3.getBetAt s p i with
    | none => rw [hg] at hc; exact absurd hc (by simp)
    | some b => rw [hg] at hc; exact ⟨b, rfl, hc⟩
  obtain ⟨b, hg, hbc⟩ := hsome
  have hnz : b.commitBlock ≠ 0 := reach_claimed_nz hr p i b hg hbc
  refine ⟨?_, ?_, ?_⟩
  · intro bn bh sec sal
    simp only [V3.revealInner, hg]
    rw [if_neg hnz, if_pos hbc]
  · intro bn bh idx secs sals s' hmem hok
    simp only [V3.batchReveal] at hok
    split at hok
    case isFalse => exact Except.noConfusion hok
    rename_i hlen
    split at hok
    case isFalse => exact Except.noConfusion hok
    have hmem2 : i ∈ (idx.zip (secs.zip sals)).map (·.1) := by
      have hfst : (idx.zip (secs.zip sals)).map (·.1) = idx := by
        apply List.map_fst_zip
        rw [List.length_zip]
        obtain ⟨h1, h2⟩ := hlen
        omega
      rw [hfst]
      exact hmem
    have hko := revealMany_claimed_not_ok C bh bn p (idx.zip (secs.zip sals)) s i hc hmem2
    rw [hok] at hko
    exact absurd hko (by simp [isOk])
  · intro op s' hstep
    exact stepOp_claimed_mono hstep p i hc

/-- C10. A `batchReveal` can never pay the same bet twice: a successful
batch implies the listed indices are pairwise distinct (a duplicate's second
occurrence hits the already-claimed check, which aborts the whole batch),
and every listed index ends the batch settled (`claimed = true`); a failing
batch reverts wholesale, changing nothing and paying nobody. -/
theorem claim10_batch_no_double_pay (C : Crypto) (bh : Nat → Nat) (bn : Nat)
    (s : V3.State) (p : Nat) (idx secs sals : List Nat) (s' : V3.State)
    (h : V3.batchReveal C bh bn s p idx secs sals = .ok s') :
    idx.Nodup ∧ ∀ i ∈ idx, V3.betClaimed s' p i = true := by
  simp only [V3.batchReveal] at h
  split at h
  case isFalse => exact Except.noConfusion h
  rename_i hlen
  split at h
  case isFalse => exact Except.noConfusion h
  obtain ⟨hnd, hall⟩ := revealMany_ok_anatomy _ _ _ h
  have hfst : (idx.zip (secs.zip sals)).map (·.1) = idx := by
    apply List.map_fst_zip
    rw [List.length_zip]
    obtain ⟨h1, h2⟩ := hlen
    omega
  constructor
  · rw [hfst] at hnd
    exact hnd
  · intro i hi
    rw [← hfst] at hi
    obtain ⟨e, he, rfl⟩ := List.mem_map.mp hi
    exact hall e he

/-- Witness for C6: after the concrete commit-and-reveal trace, revealing
index 0 again fails with the already-claimed error. -/
theorem claim6_witness :
    V3.revealInner winCrypto (bh256 7) 7 c6s2 1 0 4 5 = .error .alreadyClaimed :=
  (claim6_claimed_monotone winCrypto c6s2
    (V3.Reach.step c6s1 c6op2 c6s2
      (V3.Reach.step c6s0 c6op1 c6s1
        (V3.Reach.init 7 (20000 * 10 ^ 18) [(1, 3000 * 10 ^ 18)]) (by decide))
      (by decide))
    1 0 (by decide)).1 7 (bh256 7) 4 5

/-- Witness for C10: the concrete two-bet batch succeeds, its index list is
duplicate-free and both bets end claimed. -/
theorem claim10_witness :
    ([0, 1] : List Nat).Nodup ∧ V3.betClaimed c10s2 1 0 = true ∧
      V3.betClaimed c10s2 1 1 = true :=
  have h := claim10_batch_no_double_pay winCrypto (bh256 6) 6 c10s1 1 [0, 1] [4, 4]
    [5, 5] c10s2 (by decide)
  ⟨h.1, h.2 0 (by decide), h.2 1 (by decide)⟩

theorem pullFrom_ok_le {s s1 : V3.State} {p amt : Nat}
    (h : V3.pullFrom s p amt = .ok s1) : amt ≤ alookupD 0 s.bals p := by
  simp only [V3.pullFrom] at h
  split at h
  · assumption
  · exact Except.noConfusion h

theorem click_ok_iff (s : V3.State) (sender bn dh ba m nr : Nat) :
    isOk (V3.click s sender bn dh ba m nr) = true ↔
      (s.paused = false ∧ dh ≠ 0 ∧ V3.isValidBet ba = true ∧
       V3.isValidMultiplier m = true ∧ 1 ≤ nr ∧ nr ≤ V3.MAX_ROLLS ∧
       V3.maxPayout ba m nr ≤ s.balance / V3.MAX_PAYOUT_DIVISOR ∧
       ba * nr ≤ alookupD 0 s.bals sender) := by
  constructor
  · intro h
    simp only [V3.click] at h
    split at h
    case isTrue => simp [isOk] at h
    rename_i hp
    split at h
    case isTrue => simp [isOk] at h
    rename_i h0
    split at h
    case isTrue => simp [isOk] at h
    rename_i hvb
    split at h
    case isTrue => simp [isOk] at h
    rename_i hvm
    split at h
    case isTrue => simp [isOk] at h
    rename_i hn1
    split at h
    case isTrue => simp [isOk] at h
    rename_i hn2
    split at h
    case isTrue => simp [isOk] at h
    rename_i hguard
    split at h
    case _ e heq => simp [isOk] at h
    rename_i s1 hpull
    exact ⟨by simpa using hp, h0, by simpa using hvb, by simpa using hvm,
      Nat.not_lt.mp hn1, Nat.not_lt.mp hn2, Nat.not_lt.mp hguard,
      pullFrom_ok_le hpull⟩
  · rintro ⟨hp, h0, hvb, hvm, hn1, hn2, hguard, hfund⟩
    have hburn : ba * nr * V3.BURN_PERCENT / 100 ≤ s.balance + ba * nr :=
      le_trans (le_trans (Nat.div_le_self _ _) (by simp [V3.BURN_PERCENT]))
        (Nat.le_add_left _ _)
    simp only [V3.click, V3.pullFrom, V3.pushTo]
    rw [if_neg (by simp [hp]), if_neg h0, if_neg (by simp [hvb]),
      if_neg (by simp [hvm]), if_neg (by omega), if_neg (Nat.not_lt.mpr hn2),
      if_neg (Nat.not_lt.mpr hguard), if_pos hfund]
    simp [isOk, hburn]

/-! ## C1, C2: solvency and admission of the current contract -/

/-- C1 counterexample. The claim "after every completed operation
`balance ≥ reservedLiability`, and `executeWithdraw` transfers at most
`balance − reservedLiability`" is false on the cited code: after the
completed trace fund → commit → requestWithdraw → executeWithdraw, the
pool balance (0 — lines 245–254 transfer everything) is strictly below the
reserved liability of the still-open bet. -/
theorem claim1_counterexample :
    (c1trace.toOption.map fun s => decide (V3.reservedLiability s ≤ s.balance)) =
      some false := by
  decide

/-- C1 amended. What the current contract actually guarantees: a commit is
admitted only if its worst-case payout is at most one fifth of the pool
balance read before the stake transfer (so the pool then holds at least
five times that bet's worst case); a commit over the cap is rejected (whole
call reverts, no state change); and `executeWithdraw` transfers the entire
pool balance to the destination — there is no reserved-liability counter,
so nothing is held back for open bets and `balance ≥ reservedLiability` is
not maintained. -/
theorem claim1_amended_solvency :
    (∀ (s : V3.State) (sender bn dh ba m nr : Nat) (s' : V3.State),
        V3.click s sender bn dh ba m nr = .ok s' →
        V3.maxPayout ba m nr ≤ s.balance / V3.MAX_PAYOUT_DIVISOR ∧
        V3.MAX_PAYOUT_DIVISOR * V3.maxPayout ba m nr ≤ s.balance) ∧
    (∀ (s : V3.State) (sender bn dh ba m nr : Nat),
        s.balance / V3.MAX_PAYOUT_DIVISOR < V3.maxPayout ba m nr →
        isOk (V3.click s sender bn dh ba m nr) = false) ∧
    (∀ (s : V3.State) (sender t : Nat) (s' : V3.State),
        V3.executeWithdraw s sender t = .ok s' →
        s'.balance = 0 ∧
        alookupD 0 s'.bals s.withdrawTo = alookupD 0 s.bals s.withdrawTo + s.balance) := by
  have hcap : ∀ (s : V3.State) (sender bn dh ba m nr : Nat),
      isOk (V3.click s sender bn dh ba m nr) = true →
      V3.maxPayout ba m nr ≤ s.balance / V3.MAX_PAYOUT_DIVISOR :=
    fun s sender bn dh ba m nr h =>
      ((click_ok_iff s sender bn dh ba m nr).mp h).2.2.2.2.2.2.1
  refine ⟨?_, ?_, ?_⟩
  · intro s sender bn dh ba m nr s' h
    have h1 : V3.maxPayout ba m nr ≤ s.balance / V3.MAX_PAYOUT_DIVISOR :=
      hcap s sender bn dh ba m nr (by rw [h]; rfl)
    refine ⟨h1, ?_⟩
    calc V3.MAX_PAYOUT_DIVISOR * V3.maxPayout ba m nr
        ≤ V3.MAX_PAYOUT_DIVISOR * (s.balance / V3.MAX_PAYOUT_DIVISOR) :=
          Nat.mul_le_mul_left _ h1
      _ = s.balance / V3.MAX_PAYOUT_DIVISOR * V3.MAX_PAYOUT_DIVISOR := Nat.mul_comm _ _
      _ ≤ s.balance := Nat.div_mul_le_self _ _
  · intro s sender bn dh ba m nr hguard
    cases hres : isOk (V3.click s sender bn dh ba m nr) with
    | false => rfl
    | true =>
      exact absurd (hcap s sender bn dh ba m nr hres) (Nat.not_le.mpr hguard)
  · intro s sender t s' h
    simp only [V3.executeWithdraw] at h
    split at h
    · exact Except.noConfusion h
    split at h
    · exact Except.noConfusion h
    split at h
    · exact Except.noConfusion h
    simp only [V3.pushTo] at h
    split at h
    · injection h with h
      subst h
      refine ⟨Nat.sub_self _, ?_⟩
      simpa using alookupD_aset_self 0 s.bals s.withdrawTo _
    · rename_i hlt
      exact absurd (le_refl s.balance) hlt

/-- Witness for the amended C1: a concrete admitted commit satisfies the
cap, a concrete over-cap commit is rejected, and a concrete executed
withdrawal empties the pool into the destination. -/
theorem claim1_witness :
    (V3.maxPayout (2000 * 10 ^ 18) 2 1 ≤ c1s0.balance / V3.MAX_PAYOUT_DIVISOR ∧
      V3.MAX_PAYOUT_DIVISOR * V3.maxPayout (2000 * 10 ^ 18) 2 1 ≤ c1s0.balance) ∧
    isOk (V3.click c2s0 1 5 1 (2000 * 10 ^ 18) 2 1) = false ∧
    (w1s3.balance = 0 ∧
      alookupD 0 w1s3.bals w1s2.withdrawTo =
        alookupD 0 w1s2.bals w1s2.withdrawTo + w1s2.balance) :=
  ⟨claim1_amended_solvency.1 c1s0 1 5 1 (2000 * 10 ^ 18) 2 1 w1s1 (by decide),
   claim1_amended_solvency.2.1 c2s0 1 5 1 (2000 * 10 ^ 18) 2 1 (by decide),
   claim1_amended_solvency.2.2 w1s2 7 1900 w1s3 (by decide)⟩

/-- C2 counterexample. The claim "admitted iff (a) unreserved capacity
covers the payout and (b) payout ≤ post-burn, post-transfer balance / 5"
is false on the cited code: at pool 19 400e18 with no open bets, a
2 000e18 stake at 2x (worst case 3 920e18) passes both of the spec's
post-transfer checks, yet `click` rejects it, because line 104 reads the
balance before the stake comes in (3 920e18 > 19 400e18 / 5). -/
theorem claim2_counterexample :
    V3.click c2s0 1 5 1 (2000 * 10 ^ 18) 2 1 = .error .payoutExceedsMax ∧
    V3.admitSpec (V3.maxPayout (2000 * 10 ^ 18) 2 1)
      (V3.postStakeBalance c2s0 (2000 * 10 ^ 18) 1) (V3.reservedLiability c2s0) =
      true := by
  decide

/-- C2 amended. The commit admission the code enforces: `click` succeeds
iff the validation checks pass, the caller can fund the total stake, and
the one solvency check holds — worst-case payout at most one fifth of the
pool balance read *before* the stake transfer and burn (line 104; the
project's own audit flags this as finding M-1); reserved liability is not
consulted, and any failure rejects the whole call with no state change. -/
theorem claim2_amended_admission (s : V3.State) (sender bn dh ba m nr : Nat) :
    isOk (V3.click s sender bn dh ba m nr) = true ↔
      (s.paused = false ∧ dh ≠ 0 ∧ V3.isValidBet ba = true ∧
       V3.isValidMultiplier m = true ∧ 1 ≤ nr ∧ nr ≤ V3.MAX_ROLLS ∧
       V3.maxPayout ba m nr ≤ s.balance / V3.MAX_PAYOUT_DIVISOR ∧
       ba * nr ≤ alookupD 0 s.bals sender) :=
  click_ok_iff s sender bn dh ba m nr

/-- Witness for the amended C2: the concrete in-cap commit is admitted via
the right-to-left direction of the equivalence. -/
theorem claim2_witness :
    isOk (V3.click c1s0 1 5 1 (2000 * 10 ^ 18) 2 1) = true :=
  (claim2_amended_admission c1s0 1 5 1 (2000 * 10 ^ 18) 2 1).mpr
    ⟨by decide, by decide, by decide, by decide, by decide, by decide,
     by decide, by decide⟩

/-! ## C3: forfeit in the reserved-liability revision -/

theorem v2_pullFrom_bets {s s' : V2.State} {p a : Nat}
    (h : V2.pullFrom s p a = .ok s') : s'.playerBets = s.playerBets := by
  simp only [V2.pullFrom] at h
  split at h
  · injection h with h
    subst h
    rfl
  · exact Except.noConfusion h

theorem v2_pushTo_bets {s s' : V2.State} {d a : Nat}
    (h : V2.pushTo s d a = .ok s') : s'.playerBets = s.playerBets := by
  simp only [V2.pushTo] at h
  split at h
  · injection h with h
    subst h
    rfl
  · exact Except.noConfusion h

theorem v2_getBetAt_congr {s s' : V2.State} (h : s'.playerBets = s.playerBets)
    (q j : Nat) : V2.getBetAt s' q j = V2.getBetAt s q j := by
  simp [V2.getBetAt, V2.betsOf, h]

/-- An expired unclaimed bet makes `_reveal` of the reserved-liability
revision fail whatever the submitted secret: its blockhash is gone. -/
theorem v2_reveal_expired_not_ok (C : Crypto) (bh : Nat → Nat) (bn : Nat)
    (s : V2.State) (p i sec sal : Nat) (b : V2.Bet)
    (hb : V2.getBetAt s p i = some b)
    (hexp : b.commitBlock + V2.REVEAL_WINDOW < bn) (hevm : EVMBlockhash bh bn) :
    isOk (V2.revealInner C bh bn s p i sec sal) = false := by
  rw [V2.REVEAL_WINDOW] at hexp
  simp only [V2.revealInner, hb]
  by_cases hcb : b.commitBlock = 0
  · rw [if_pos hcb]
    rfl
  rw [if_neg hcb]
  by_cases hcl : b.claimed
  · rw [if_pos hcl]
    rfl
  rw [if_neg hcl, if_neg (show ¬ bn ≤ b.commitBlock by omega)]
  have hbh0 : bh b.commitBlock = 0 := by
    by_contra h0
    exact absurd ((hevm b.commitBlock).1 h0).2 (by omega)
  rw [if_pos hbh0]
  rfl

/-- A successful `_reveal` of the reserved-liability revision only rewrites
the targeted owner's array at the targeted index (plus counters/balances);
every other ledger slot keeps its record. -/
theorem v2_reveal_ok_other {C : Crypto} {bh : Nat → Nat} {bn : Nat}
    {s s' : V2.State} {p i sec sal : Nat}
    (h : V2.revealInner C bh bn s p i sec sal = .ok s') (q j : Nat)
    (hne : ¬ (q = p ∧ j = i)) : V2.getBetAt s' q j = V2.getBetAt s q j := by
  cases hg : V2.getBetAt s p i with
  | none =>
    simp only [V2.revealInner, hg] at h
    exact Except.noConfusion h
  | some b =>
    simp only [V2.revealInner, hg] at h
    split at h
    · exact Except.noConfusion h
    split at h
    · exact Except.noConfusion h
    split at h
    · exact Except.noConfusion h
    split at h
    · exact Except.noConfusion h
    split at h
    · exact Except.noConfusion h
    split at h
    · exact Except.noConfusion h
    split at h
    · exact Except.noConfusion h
    have hpb := v2_pushTo_bets h
    simp only [V2.betsOf] at hpb
    simp only [V2.getBetAt, V2.betsOf] at hg ⊢
    simp only [hpb]
    by_cases hq : q = p
    · subst hq
      rw [alookupD_aset_self,
        List.getElem?_set_ne (by rintro rfl; exact hne ⟨rfl, rfl⟩)]
    · rw [alookupD_aset_ne _ _ _ _ _ hq]

/-- A successful commit of the reserved-liability revision only appends to
the sender's array: every pre-existing ledger slot keeps its record. -/
theorem v2_click_ok_keeps {s s' : V2.State} {sender bn dh ba m : Nat}
    (h : V2.click s sender bn dh ba m = .ok s') (q j : Nat) (b : V2.Bet)
    (hg : V2.getBetAt s q j = some b) : V2.getBetAt s' q j = some b := by
  simp only [V2.click] at h
  iterate 5 (split at h <;> first | exact Except.noConfusion h | skip)
  split at h
  next => exact Except.noConfusion h
  rename_i s1 hpull
  split at h
  next => exact Except.noConfusion h
  rename_i s2 hpush
  injection h with h
  subst h
  have h1 := v2_pullFrom_bets hpull
  have h2 := v2_pushTo_bets hpush
  simp only [V2.getBetAt, V2.betsOf] at hg ⊢
  simp only [V2.betsOf, h2, h1]
  by_cases hq : q = sender
  · subst hq
    rw [alookupD_aset_self,
      List.getElem?_append_left (List.getElem?_eq_some.mp hg).1]
    exact hg
  · rw [alookupD_aset_ne _ _ _ _ _ hq]
    exact hg

/-- A successful `forfeit` only rewrites the targeted slot. -/
theorem v2_forfeit_ok_other {s s' : V2.State} {p bn i : Nat}
    (h : V2.forfeit s p bn i = .ok s') (q j : Nat)
    (hne : ¬ (q = p ∧ j = i)) : V2.getBetAt s' q j = V2.getBetAt s q j := by
  cases hg : V2.getBetAt s p i with
  | none =>
    simp only [V2.forfeit, hg] at h
    exact Except.noConfusion h
  | some b =>
    simp only [V2.forfeit, hg] at h
    split at h
    · exact Except.noConfusion h
    split at h
    · exact Except.noConfusion h
    split at h
    · exact Except.noConfusion h
    split at h
    · exact Except.noConfusion h
    injection h with h
    subst h
    simp only [V2.getBetAt, V2.betsOf]
    by_cases hq : q = p
    · subst hq
      rw [alookupD_aset_self,
        List.getElem?_set_ne (by rintro rfl; exact hne ⟨rfl, rfl⟩)]
    · rw [alookupD_aset_ne _ _ _ _ _ hq]

/-- What a successful `forfeit` does to the targeted bet: marks it claimed,
releases exactly the worst-case reservation, moves no tokens. -/
theorem v2_forfeit_anatomy (s : V2.State) (p bn i : Nat) (b : V2.Bet)
    (hb : V2.getBetAt s p i = some b) (hcb : b.commitBlock ≠ 0)
    (hnc : b.claimed = false) (hbn : b.commitBlock < bn)
    (hout : V2.payoutOf b.betAmount b.multiplier ≤
      s.totalOutstandingPotentialPayouts) :
    (V2.forfeit s p bn i).toOption.map (fun s' =>
        (V2.betClaimed s' p i, s'.totalOutstandingPotentialPayouts,
         s'.balance, s'.bals)) =
      some (true,
        s.totalOutstandingPotentialPayouts - V2.payoutOf b.betAmount b.multiplier,
        s.balance, s.bals) := by
  simp only [V2.forfeit, hb]
  rw [if_neg hcb, if_neg (by simp [hnc]), if_neg (show ¬ bn ≤ b.commitBlock by omega),
    if_neg (Nat.not_lt.mpr hout)]
  have hlt : i < (alookupD [] s.playerBets p).length :=
    (List.getElem?_eq_some.mp (by simpa [V2.getBetAt, V2.betsOf] using hb)).1
  simp [Except.toOption, V2.betClaimed, V2.getBetAt, V2.betsOf,
    alookupD_aset_self, List.getElem?_set, hlt]

theorem v2_revealMany_keeps (C : Crypto) (bh : Nat → Nat) (bn p0 p i : Nat)
    (b : V2.Bet) (hexp : b.commitBlock + V2.REVEAL_WINDOW < bn)
    (hevm : EVMBlockhash bh bn) :
    ∀ (l : List (Nat × Nat × Nat)) (s s' : V2.State),
      V2.revealMany C bh bn p0 s l = .ok s' →
      V2.getBetAt s p i = some b →
      V2.getBetAt s' p i = some b := by
  intro l
  induction l with
  | nil =>
    intro s s' h hg
    simp only [V2.revealMany] at h
    injection h with h
    subst h
    exact hg
  | cons hd tl ih =>
    intro s s' h hg
    obtain ⟨j, sec, sal⟩ := hd
    simp only [V2.revealMany] at h
    split at h
    · exact Except.noConfusion h
    rename_i s1 h1
    by_cases hne : p0 = p ∧ j = i
    · obtain ⟨rfl, rfl⟩ := hne
      have hko := v2_reveal_expired_not_ok C bh bn s p0 j sec sal b hg hexp hevm
      rw [h1] at hko
      exact absurd hko (by simp [isOk])
    · refine ih s1 s' h ?_
      rw [v2_reveal_ok_other h1 p i (fun hx => hne ⟨hx.1.symm, hx.2.symm⟩)]
      exact hg

theorem v2_requestW_bets {s s' : V2.State} {a t d : Nat}
    (h : V2.requestWithdraw s a t d = .ok s') : s'.playerBets = s.playerBets := by
  simp only [V2.requestWithdraw] at h
  iterate 3 (split at h <;> first | exact Except.noConfusion h | skip)
  injection h with h
  subst h
  rfl

theorem v2_cancelW_bets {s s' : V2.State} {a : Nat}
    (h : V2.cancelWithdraw s a = .ok s') : s'.playerBets = s.playerBets := by
  simp only [V2.cancelWithdraw] at h
  split at h
  · exact Except.noConfusion h
  injection h with h
  subst h
  rfl

theorem v2_executeW_bets {s s' : V2.State} {a t : Nat}
    (h : V2.executeWithdraw s a t = .ok s') : s'.playerBets = s.playerBets := by
  simp only [V2.executeWithdraw] at h
  iterate 4 (split at h <;> first | exact Except.noConfusion h | skip)
  rw [v2_pushTo_bets h]

theorem v2_unpause_bets {s s' : V2.State} {a : Nat}
    (h : V2.unpause s a = .ok s') : s'.playerBets = s.playerBets := by
  simp only [V2.unpause] at h
  iterate 2 (split at h <;> first | exact Except.noConfusion h | skip)
  injection h with h
  subst h
  rfl

theorem v2_propose_bets {s s' : V2.State} {a n : Nat}
    (h : V2.proposeOwner s a n = .ok s') : s'.playerBets = s.playerBets := by
  simp only [V2.proposeOwner] at h
  iterate 2 (split at h <;> first | exact Except.noConfusion h | skip)
  injection h with h
  subst h
  rfl

theorem v2_accept_bets {s s' : V2.State} {a : Nat}
    (h : V2.acceptOwnership s a = .ok s') : s'.playerBets = s.playerBets := by
  simp only [V2.acceptOwnership] at h
  split at h
  · exact Except.noConfusion h
  injection h with h
  subst h
  rfl

/-- C3. `forfeit(betIndex)` of the reserved-liability revision (the only
contract revision in the repository that has a forfeit; the newest revision
has none): on any unclaimed bet strictly after its commit block, forfeit
succeeds, marks `claimed = true`, subtracts exactly the bet's worst-case
payout from `totalOutstandingPotentialPayouts`, and moves no tokens
(pool balance and every other balance unchanged); and once the bet's reveal
window has passed, forfeit is the *only* operation that can touch that
ledger slot — every other well-formed operation that completes leaves the
bet's record (hence its reservation) exactly as it was, a reveal of it
failing as expired. -/
theorem claim3_forfeit (C : Crypto) (s : V2.State) (p i bn : Nat) (b : V2.Bet)
    (hb : V2.getBetAt s p i = some b) (hcb : b.commitBlock ≠ 0)
    (hnc : b.claimed = false) (hbn : b.commitBlock < bn)
    (hout : V2.payoutOf b.betAmount b.multiplier ≤
      s.totalOutstandingPotentialPayouts) :
    ((V2.forfeit s p bn i).toOption.map (fun s' =>
        (V2.betClaimed s' p i, s'.totalOutstandingPotentialPayouts,
         s'.balance, s'.bals)) =
      some (true,
        s.totalOutstandingPotentialPayouts - V2.payoutOf b.betAmount b.multiplier,
        s.balance, s.bals)) ∧
    (b.commitBlock + V2.REVEAL_WINDOW < bn →
      ∀ op s', V2.stepOp C s op = .ok s' → V2.OpWF bn op →
        ¬ V2.IsForfeitOf p i op → V2.getBetAt s' p i = some b) := by
  refine ⟨v2_forfeit_anatomy s p bn i b hb hcb hnc hbn hout, ?_⟩
  intro hexp op s' hstep hwf hnf
  cases op with
  | clickOp sender bn' dh ba m => exact v2_click_ok_keeps hstep p i b hb
  | revealOp sender bn' j sec sal bh =>
    obtain ⟨hlo, hevm⟩ := hwf
    simp only [V2.stepOp, V2.reveal] at hstep
    by_cases hne : sender = p ∧ j = i
    · obtain ⟨rfl, rfl⟩ := hne
      have hko := v2_reveal_expired_not_ok C bh bn' s sender j sec sal b hb
        (by omega) hevm
      rw [hstep] at hko
      exact absurd hko (by simp [isOk])
    · rw [v2_reveal_ok_other hstep p i (fun hx => hne ⟨hx.1.symm, hx.2.symm⟩)]
      exact hb
  | batchOp sender bn' idx secs sals bh =>
    obtain ⟨hlo, hevm⟩ := hwf
    simp only [V2.stepOp, V2.batchReveal] at hstep
    split at hstep
    · split at hstep
      · exact v2_revealMany_keeps C bh bn' sender p i b (by omega) hevm _ _ _
          hstep hb
      · exact Except.noConfusion hstep
    · exact Except.noConfusion hstep
  | forfeitOp sender bn' j =>
    have hne : ¬ (sender = p ∧ j = i) := hnf
    rw [v2_forfeit_ok_other hstep p i (fun hx => hne ⟨hx.1.symm, hx.2.symm⟩)]
    exact hb
  | requestW sender t d =>
    rw [v2_getBetAt_congr (v2_requestW_bets hstep)]
    exact hb
  | cancelW sender =>
    rw [v2_getBetAt_congr (v2_cancelW_bets hstep)]
    exact hb
  | executeW sender t =>
    rw [v2_getBetAt_congr (v2_executeW_bets hstep)]
    exact hb
  | unpauseOp sender =>
    rw [v2_getBetAt_congr (v2_unpause_bets hstep)]
    exact hb
  | proposeOp sender n =>
    rw [v2_getBetAt_congr (v2_propose_bets hstep)]
    exact hb
  | acceptOp sender =>
    rw [v2_getBetAt_congr (v2_accept_bets hstep)]
    exact hb

/-- Witness for C3: the concrete open 10 000e18 bet at 2x, reserved at
19 600e18, forfeited at block 300 — claimed, reservation zeroed, balances
untouched. -/
theorem claim3_witness :
    (V2.forfeit c3s 1 300 0).toOption.map (fun s' =>
        (V2.betClaimed s' 1 0, s'.totalOutstandingPotentialPayouts,
         s'.balance, s'.bals)) =
      some (true,
        c3s.totalOutstandingPotentialPayouts -
          V2.payoutOf c3bet.betAmount c3bet.multiplier,
        c3s.balance, c3s.bals) :=
  (claim3_forfeit winCrypto c3s 1 0 300 c3bet (by decide) (by decide) (by decide)
    (by decide) (by decide)).1

/-! ## The spec's solvency invariant on the reserved-liability revision -/

theorem v2_pullFrom_ok {s s1 : V2.State} {p amt : Nat}
    (h : V2.pullFrom s p amt = .ok s1) :
    s1.balance = s.balance + amt ∧
      s1.totalOutstandingPotentialPayouts = s.totalOutstandingPotentialPayouts := by
  simp only [V2.pullFrom] at h
  split at h
  · injection h with h
    subst h
    exact ⟨rfl, rfl⟩
  · exact Except.noConfusion h

theorem v2_pushTo_ok {s s1 : V2.State} {d amt : Nat}
    (h : V2.pushTo s d amt = .ok s1) :
    s1.balance = s.balance - amt ∧
      s1.totalOutstandingPotentialPayouts = s.totalOutstandingPotentialPayouts ∧
      amt ≤ s.balance := by
  simp only [V2.pushTo] at h
  split at h
  · injection h with h
    subst h
    exact ⟨rfl, rfl, by assumption⟩
  · exact Except.noConfusion h

theorem v2_click_solvent {s s' : V2.State} {sender bn dh ba m : Nat}
    (h : V2.click s sender bn dh ba m = .ok s')
    (inv : s.totalOutstandingPotentialPayouts ≤ s.balance) :
    s'.totalOutstandingPotentialPayouts ≤ s'.balance := by
  simp only [V2.click] at h
  iterate 4 (split at h <;> first | exact Except.noConfusion h | skip)
  split at h
  · exact Except.noConfusion h
  rename_i hguard
  split at h
  next => exact Except.noConfusion h
  rename_i s1 hpull
  split at h
  next => exact Except.noConfusion h
  rename_i s2 hpush
  injection h with h
  subst h
  obtain ⟨hb1, ho1⟩ := v2_pullFrom_ok hpull
  obtain ⟨hb2, ho2, hle2⟩ := v2_pushTo_ok hpush
  have hburn : ba * V2.BURN_PERCENT / 100 ≤ ba :=
    le_trans (Nat.div_le_self _ _) (by simp [V2.BURN_PERCENT])
  have hguard' := Nat.not_lt.mp hguard
  simp only
  omega

theorem v2_reveal_solvent {C : Crypto} {bh : Nat → Nat} {bn : Nat}
    {s s' : V2.State} {p i sec sal : Nat}
    (h : V2.revealInner C bh bn s p i sec sal = .ok s')
    (inv : s.totalOutstandingPotentialPayouts ≤ s.balance) :
    s'.totalOutstandingPotentialPayouts ≤ s'.balance := by
  cases hg : V2.getBetAt s p i with
  | none =>
    simp only [V2.revealInner, hg] at h
    exact Except.noConfusion h
  | some b =>
    simp only [V2.revealInner, hg] at h
    iterate 6 (split at h <;> first | exact Except.noConfusion h | skip)
    split at h
    · exact Except.noConfusion h
    rename_i hunder
    obtain ⟨hb1, ho1, hle1⟩ := v2_pushTo_ok h
    have hunder' := Nat.not_lt.mp hunder
    simp only at hb1 ho1 hle1
    omega

theorem v2_revealMany_solvent {C : Crypto} {bh : Nat → Nat} {bn p : Nat} :
    ∀ (l : List (Nat × Nat × Nat)) (s s' : V2.State),
      V2.revealMany C bh bn p s l = .ok s' →
      s.totalOutstandingPotentialPayouts ≤ s.balance →
      s'.totalOutstandingPotentialPayouts ≤ s'.balance := by
  intro l
  induction l with
  | nil =>
    intro s s' h inv
    simp only [V2.revealMany] at h
    injection h with h
    subst h
    exact inv
  | cons hd tl ih =>
    intro s s' h inv
    obtain ⟨j, sec, sal⟩ := hd
    simp only [V2.revealMany] at h
    split at h
    · exact Except.noConfusion h
    rename_i s1 h1
    exact ih s1 s' h (v2_reveal_solvent h1 inv)

theorem v2_forfeit_solvent {s s' : V2.State} {p bn i : Nat}
    (h : V2.forfeit s p bn i = .ok s')
    (inv : s.totalOutstandingPotentialPayouts ≤ s.balance) :
    s'.totalOutstandingPotentialPayouts ≤ s'.balance := by
  cases hg : V2.getBetAt s p i with
  | none =>
    simp only [V2.forfeit, hg] at h
    exact Except.noConfusion h
  | some b =>
    simp only [V2.forfeit, hg] at h
    iterate 4 (split at h <;> first | exact Except.noConfusion h | skip)
    injection h with h
    subst h
    simp only
    omega

/-- The specification's invariant 1, `balance ≥ reservedLiability`, holds
after every completed operation of the reserved-liability revision — the
revision whose admission check and withdrawal cap were written for it. -/
theorem v2_solvency_invariant {C : Crypto} {s : V2.State} (hr : V2.Reach C s) :
    s.totalOutstandingPotentialPayouts ≤ s.balance := by
  induction hr with
  | init ownerAddr pool funds => exact Nat.zero_le _
  | step s op s' hreach hstep ih =>
    cases op with
    | clickOp sender bn dh ba m => exact v2_click_solvent hstep ih
    | revealOp sender bn i sec sal bh => exact v2_reveal_solvent hstep ih
    | batchOp sender bn idx secs sals bh =>
      simp only [V2.stepOp, V2.batchReveal] at hstep
      split at hstep
      · split at hstep
        · exact v2_revealMany_solvent _ _ _ hstep ih
        · exact Except.noConfusion hstep
      · exact Except.noConfusion hstep
    | forfeitOp sender bn i => exact v2_forfeit_solvent hstep ih
    | requestW sender t d =>
      simp only [V2.stepOp] at hstep
      simp only [V2.requestWithdraw] at hstep
      iterate 3 (split at hstep <;> first | exact Except.noConfusion hstep | skip)
      injection hstep with hstep
      subst hstep
      exact ih
    | cancelW sender =>
      simp only [V2.stepOp, V2.cancelWithdraw] at hstep
      split at hstep
      · exact Except.noConfusion hstep
      injection hstep with hstep
      subst hstep
      exact ih
    | executeW sender t =>
      simp only [V2.stepOp, V2.executeWithdraw] at hstep
      iterate 3 (split at hstep <;> first | exact Except.noConfusion hstep | skip)
      split at hstep
      · exact Except.noConfusion hstep
      rename_i hbal
      obtain ⟨hb1, ho1, hle1⟩ := v2_pushTo_ok hstep
      have hbal' := Nat.not_le.mp hbal
      simp only at hb1 ho1
      omega
    | unpauseOp sender =>
      simp only [V2.stepOp, V2.unpause] at hstep
      iterate 2 (split at hstep <;> first | exact Except.noConfusion hstep | skip)
      injection hstep with hstep
      subst hstep
      exact ih
    | proposeOp sender n =>
      simp only [V2.stepOp, V2.proposeOwner] at hstep
      iterate 2 (split at hstep <;> first | exact Except.noConfusion hstep | skip)
      injection hstep with hstep
      subst hstep
      exact ih
    | acceptOp sender =>
      simp only [V2.stepOp, V2.acceptOwnership] at hstep
      split at hstep
      · exact Except.noConfusion hstep
      injection hstep with hstep
      subst hstep
      exact ih
